import Mathlib

/-!
Verification of the rate-limited, cached, concurrent remote-data-fetch client
of the owbot repository (`owbot/overwatch/overwatch.go`, channel-token
revision, and `owbot/discord/rest.go`, retry-loop revision), as a shallow
embedding in Lean.

Conventions of the embedding:
* Go `time.Time` / `time.Duration` are modelled as unbounded `Int`
  nanoseconds (Go uses int64; none of the quantities involved approach
  overflow, so wrap-around is not modelled).
* Go `float32` statistics fields are value carriers only (never used in
  arithmetic by the code under verification); they are modelled as `Int`.
* The ARC cache (`github.com/hashicorp/golang-lru`) is modelled as an
  association list with first-match lookup and prepend-overwrite `Add`.
  Capacity-based eviction (capacity 200) is not modelled: none of the
  verified scenarios involve more than a handful of keys.
* The HTTP transport and the JSON decoder are external collaborators; they
  are modelled by stub functions / outcome values, exactly at the interface
  the Go code observes (status code, decode outcome, header values).
* Concurrent executions of `GetStats` are modelled by a small-step
  interleaving semantics: each atomic action of a goroutine (a cache read,
  a channel receive, a channel send, one transport round trip, a cache
  write) is one step, and a trace is any list of labelled events.
-/

namespace Owbot

/-- `time.Millisecond`, in nanoseconds (instants and durations are `Int`
nanoseconds throughout). -/
def millisecondNs : Int := 1000000

/-- `time.Second`. -/
def secondNs : Int := 1000000000

/-- `cacheDurationStats = 5 * time.Minute` (overwatch.go): time before user
stats are considered stale. -/
def cacheDurationStats : Int := 5 * 60 * secondNs

/-- `defaultRetryAfter = 10 * time.Second` (rest.go): default wait after a
429 response whose Retry-After header could not be parsed. -/
def defaultRetryAfter : Int := 10 * secondNs

/-- `cacheSizeStats = 200` (overwatch.go): ARC cache capacity. Recorded for
reference; eviction is not modelled (see file comment). -/
def cacheSizeStats : Nat := 200

/-!
## Battle tag normalization

`GetStats` starts with `battleTag = strings.Replace(battleTag, "#", "-", -1)`.
For the one-character pattern `"#"` this is exactly a character-by-character
replacement.
-/

/-- Character-level embedding of `strings.Replace(s, "#", "-", -1)`. -/
def normalizeChars : List Char → List Char
  | [] => []
  | c :: cs => (if c = '#' then '-' else c) :: normalizeChars cs

/-- The URL-friendly battle tag computed at the top of `GetStats`; it is used
both as the cache key and as the upstream path component. -/
def normalizeTag (s : String) : String := ⟨normalizeChars s.data⟩

/-!
## Data model: `UserStats` and the stats cache
-/

/-- `UserStats.OverallStats` (overwatch.go). -/
structure OverallStats where
  compRank : Int
  games : Int
  level : Int
  losses : Int
  prestige : Int
  wins : Int
  winRate : Int
deriving DecidableEq

/-- `UserStats.GameStats` (overwatch.go). The Go fields are `float32`; the
code never computes with them, so they are carried as `Int` values. -/
structure GameStats where
  deaths : Int
  eliminations : Int
  soloKills : Int
  kpd : Int
  timePlayed : Int
  medals : Int
  medalsGold : Int
  medalsSilver : Int
  medalsBronze : Int
deriving DecidableEq

/-- `UserStats` (overwatch.go). -/
structure UserStats where
  battleTag : String
  overallStats : OverallStats
  gameStats : GameStats
  region : String
deriving DecidableEq

/-- `userStatsCacheEntry` (overwatch.go): a stats value plus the time it was
added to the cache. -/
structure UserStatsCacheEntry where
  stats : UserStats
  addedAt : Int
deriving DecidableEq

/-- The stats cache contents: association list keyed by normalized battle
tag; lookup takes the first match, `Add` prepends (overwrite semantics). -/
abbrev StatsCache := List (String × UserStatsCacheEntry)

/-- Lookup in the modelled cache (`userStatsCache.Get`). -/
def cacheLookup : StatsCache → String → Option UserStatsCacheEntry
  | [], _ => none
  | (k, e) :: rest, key => if k = key then some e else cacheLookup rest key

/-- `userStatsCache.Add(battleTag, cacheEntry)`: insert/overwrite. -/
def cacheAdd (cache : StatsCache) (key : String) (e : UserStatsCacheEntry) :
    StatsCache :=
  (key, e) :: cache

/-- `getUserStatsFromCache` (overwatch.go): returns a cached entry only if
present and `time.Since(addedAt) <= cacheDurationStats`; an expired entry
yields `none` exactly like a missing one, and the get itself never writes. -/
def getUserStatsFromCache (cache : StatsCache) (battleTag : String)
    (now : Int) : Option UserStats :=
  match cacheLookup cache battleTag with
  | some e => if now - e.addedAt ≤ cacheDurationStats then some e.stats else none
  | none => none

/-!
## The Overwatch client `Do` (overwatch.go, lines 341-376)

`Do` performs exactly one `ow.client.Do(req)` round trip: transport-level
failure is returned as-is; a non-2xx status is returned as an
`ErrorResponse`; a JSON decode failure is tolerated when it is a
`*json.UnmarshalTypeError` (the partially populated value, with the
mismatched field left at its zero value, is returned with a warning logged)
and returned as an error for any other decode failure.
-/

/-- Outcome of running `encoding/json.Decoder.Decode` on a response body:
fully decoded, failed with a `*json.UnmarshalTypeError` (the value is
partially populated; the mismatched field keeps its zero value), or failed
with any other (structural) error. -/
inductive DecodeOutcome where
  | ok (v : UserStats)
  | typeMismatch (partVal : UserStats)
  | structuralError
deriving DecidableEq

/-- One HTTP exchange as observed by the Overwatch client's `Do`: either a
response with a status code and a body (represented by its decode outcome),
or a network-level error from `ow.client.Do`. -/
inductive OwExchange where
  | response (statusCode : Int) (decode : DecodeOutcome)
  | netError
deriving DecidableEq

/-- Errors returned by the Overwatch client's `Do`. -/
inductive DoError where
  | transportError
  | errorResponse (statusCode : Int)
  | decodeError
deriving DecidableEq

/-- Result of the Overwatch client's `Do`. -/
inductive DoResult where
  | ok (v : UserStats)
  | error (e : DoError)
deriving DecidableEq

/-- `CheckResponse` (overwatch.go): a status outside 200-299 is an error
carrying the failed response's status code. -/
def CheckResponse (statusCode : Int) : Option DoError :=
  if 200 ≤ statusCode ∧ statusCode ≤ 299 then none
  else some (.errorResponse statusCode)

/-- The Overwatch client's `Do` on a single exchange (the decode target `v`
is non-nil, as in `GetStats`). -/
def owDoResult : OwExchange → DoResult
  | .netError => .error .transportError
  | .response statusCode decode =>
    match CheckResponse statusCode with
    | some e => .error e
    | none =>
      match decode with
      | .ok v => .ok v
      | .typeMismatch partVal => .ok partVal
      | .structuralError => .error .decodeError

/-- The Overwatch client's `Do` against a stub transport delivering the
listed exchanges in order; returns the result, the number of exchanges
consumed, and the total time slept. An exhausted stub behaves like a
network error; body close operations are assumed to succeed. -/
def owDoTrace (events : List OwExchange) : DoResult × Nat × Int :=
  match events with
  | [] => (.error .transportError, 0, 0)
  | e :: _ => (owDoResult e, 1, 0)

/-!
## The Discord REST client `Do` (rest.go, lines 143-218)

`Do` loops: create the request (`NewRequest` fails with `ctx.Err()` when the
context is already cancelled), send it, and if `ExtractRetryAfter` yields a
positive duration, sleep that long and try again; otherwise break and treat
the last response with `CheckResponse` and, when a decode target is present,
the JSON decoder (no type-error tolerance in this client).
-/

/-- One stub response of the Discord API: status code, raw `Retry-After`
header value (`""` when the header is absent, as returned by `Header.Get`),
and whether JSON-decoding the success body fails. -/
structure DiscordResp where
  statusCode : Int
  retryAfterHeader : String
  decodeFails : Bool
deriving DecidableEq

/-- Digit-string to number; `none` when empty or not all digits. -/
def goAtoiDigits (ds : List Char) : Option Nat :=
  if ds.isEmpty then none
  else if ds.all Char.isDigit then
    some (ds.foldl (fun acc c => acc * 10 + (c.toNat - 48)) 0)
  else none

/-- Embedding of Go `strconv.Atoi`: optional single sign, then digits;
errors on an empty or malformed string. (int64 overflow is not modelled;
header values are small.) -/
def goAtoi (s : String) : Option Int :=
  match s.data with
  | '+' :: ds => (goAtoiDigits ds).map Int.ofNat
  | '-' :: ds => (goAtoiDigits ds).map (fun n => -(n : Int))
  | ds => (goAtoiDigits ds).map Int.ofNat

/-- `ExtractRetryAfter` (rest.go): `0` for a non-429 response; for a 429,
the parsed `Retry-After` header times `time.Millisecond`, or
`defaultRetryAfter` when the header cannot be parsed. -/
def ExtractRetryAfter (resp : DiscordResp) : Int :=
  if resp.statusCode ≠ 429 then 0
  else
    match goAtoi resp.retryAfterHeader with
    | none => defaultRetryAfter
    | some n => n * millisecondNs

/-- Result of the Discord REST client's `Do`. A success carries the status
code of the response the caller receives. -/
inductive RestResult where
  | ok (statusCode : Int)
  | cancelled
  | transportError
  | errorResponse (statusCode : Int)
  | decodeError
deriving DecidableEq

/-- Output of the Discord `Do` model: result, number of HTTP requests
actually sent, and the total duration slept in the retry loop. -/
structure RestOut where
  result : RestResult
  consumed : Nat
  slept : Int
deriving DecidableEq

/-- Whether the caller's context has fired by instant `now` (`cancelAt` is
the absolute instant at which the context is cancelled, `none` for never). -/
def ctxDoneAt (cancelAt : Option Int) (now : Int) : Bool :=
  match cancelAt with
  | none => false
  | some t => t ≤ now

/-- The Discord REST client's `Do` against a stub transport. Each loop
iteration re-creates the request (`reqFunc`, which checks `ctx.Err()`
first), consumes one stub response, and either sleeps-and-retries (positive
`ExtractRetryAfter`) or breaks to `CheckResponse` / decoding. `hasV` is
whether a decode target was passed. An exhausted stub behaves like a
transport error. The sleep itself is `time.Sleep`: it always completes, and
cancellation is observed at the next request creation. Response body close
operations are assumed to succeed (their error paths are not modelled). -/
def restDo (cancelAt : Option Int) (hasV : Bool) :
    List DiscordResp → Int → RestOut
  | [], now =>
    if ctxDoneAt cancelAt now then ⟨.cancelled, 0, 0⟩
    else ⟨.transportError, 0, 0⟩
  | resp :: rest, now =>
    if ctxDoneAt cancelAt now then ⟨.cancelled, 0, 0⟩
    else
      let ra := ExtractRetryAfter resp
      if 0 < ra then
        let out := restDo cancelAt hasV rest (now + ra)
        ⟨out.result, out.consumed + 1, out.slept + ra⟩
      else
        if 200 ≤ resp.statusCode ∧ resp.statusCode ≤ 299 then
          if hasV && resp.decodeFails then ⟨.decodeError, 1, 0⟩
          else ⟨.ok resp.statusCode, 1, 0⟩
        else ⟨.errorResponse resp.statusCode, 1, 0⟩

/-!
## Region selection (owbot/owapi)

Modelled from the spec: the `owbot/owapi` package referenced by the bot
command handler (`bot.owAPIClient.GetStats`) is not among the provided
source files; only its caller is. Per the spec, the API response carries a
set of per-region candidate results; the client selects the non-empty
candidate with the highest "games played" counter, attaches that region's
label, and fails with an `UpstreamError`-class "no competitive stats found"
when every candidate is empty or absent.
-/

/-- Result of the owapi stats lookup (spec-modelled). -/
inductive OwapiResult where
  | ok (v : UserStats)
  | upstreamError (message : String)
deriving DecidableEq

/-- Modelled from the spec: select, among the per-region candidates, the
non-empty one with the highest games-played counter (the earlier candidate
wins ties); `none` when all candidates are empty/absent. -/
def selectRegion : List (String × Option UserStats) → Option (String × UserStats)
  | [] => none
  | (_, none) :: rest => selectRegion rest
  | (r, some st) :: rest =>
    match selectRegion rest with
    | none => some (r, st)
    | some (r2, st2) =>
      if st2.overallStats.games > st.overallStats.games then some (r2, st2)
      else some (r, st)

/-- Modelled from the spec: the owapi `GetStats` response handling — pick
the representative region and attach its label, or fail with the
"no competitive stats found" upstream error. -/
def owapiSelectStats (cands : List (String × Option UserStats)) : OwapiResult :=
  match selectRegion cands with
  | none => .upstreamError "no competitive stats found"
  | some (r, st) => .ok { st with region := r }

/-!
## Concurrent `GetStats` (overwatch.go, lines 379-426)

Small-step interleaving semantics for any number of goroutines each running
one `GetStats(ctx, battleTag)` call against the shared client state: the
stats cache and the one-token `nextCh` channel (buffered, capacity 1, seeded
with a single token by `NewOverwatchClient`).

Atomic actions of one goroutine, in program order:
* `start`: normalize the tag and do the first cache lookup; a fresh hit
  returns immediately (no gate involved).
* the `select`: either receive the token (`acquire`) or, when the context
  has fired, take the `ctx.Done()` branch (`giveUp`). When both are ready,
  Go's `select` chooses either branch: both transitions are enabled.
* `recheck`: the mandatory second cache lookup while holding the token.
* `build`: `NewRequest` — may fail, reaching the deferred token release.
* `fetch`: one `ow.Do` round trip (the transport stub decides the outcome).
* `addCache`: `userStatsCache.Add` of the fully decoded value.
* `finish`: the deferred `nextCh <- true` token release and the return.
Context cancellation (`cancel`) and time passing (`tick`) are environment
events that may interleave anywhere.
-/

/-- Errors a single `GetStats` call can return. -/
inductive FetchError where
  | cancelled
  | requestBuildError
  | doErr (e : DoError)
deriving DecidableEq

/-- Result of a completed `GetStats` call. -/
inductive FetchResult where
  | ok (v : UserStats)
  | error (e : FetchError)
deriving DecidableEq

/-- Control location of one goroutine inside `GetStats`. `storing`,
`releasingOk` and `erroring` hold the token. -/
inductive Phase where
  | start
  | gateWait
  | cacheRecheck
  | building
  | fetching
  | storing (v : UserStats)
  | releasingOk (v : UserStats)
  | erroring (e : FetchError)
  | done (r : FetchResult)
deriving DecidableEq

/-- One goroutine executing `GetStats`: its raw argument, whether its
context has fired, the number of transport round trips it has performed,
and its control location. -/
structure GoThread where
  rawTag : String
  cancelled : Bool
  calls : Nat
  phase : Phase
deriving DecidableEq

/-- The cache key / upstream path component of a call (computed at the top
of `GetStats`). -/
def GoThread.key (t : GoThread) : String := normalizeTag t.rawTag

/-- Stub behavior of the external collaborators: the outcome of one
`NewRequest` + `ow.Do` round trip per key. `transport` never yields
`FetchError.cancelled` or `FetchError.requestBuildError` (those originate
in `GetStats` itself, not in `Do`). -/
structure FetchEnv where
  transport : String → DoResult
  buildFails : String → Bool

/-- Shared state of the client plus all goroutines. `token` is whether the
one-slot `nextCh` buffer currently holds the token; `calls` counts all
transport round trips. -/
structure GetStatsSys where
  cache : StatsCache
  token : Bool
  now : Int
  calls : Nat
  threads : List GoThread
deriving DecidableEq

/-- Atomic actions of one goroutine. -/
inductive GoAct where
  | start
  | giveUp
  | acquire
  | recheck
  | build
  | fetch
  | addCache
  | finish
deriving DecidableEq

/-- Labelled events of the interleaving semantics. -/
inductive GoEv where
  | thread (i : Nat) (a : GoAct)
  | cancel (i : Nat)
  | tick (d : Nat)
deriving DecidableEq

/-- Replace goroutine `i`. -/
def setThread (s : GetStatsSys) (i : Nat) (t : GoThread) : GetStatsSys :=
  { s with threads := s.threads.set i t }

/-- One step of the interleaving semantics: `none` when the event is not
enabled in `s`. -/
def step (env : FetchEnv) (ev : GoEv) (s : GetStatsSys) : Option GetStatsSys :=
  match ev with
  | .tick d => some { s with now := s.now + (d : Int) }
  | .cancel i =>
    match s.threads[i]? with
    | none => none
    | some t => some (setThread s i { t with cancelled := true })
  | .thread i a =>
    match s.threads[i]? with
    | none => none
    | some t =>
      match a, t.phase with
      | .start, .start =>
        match getUserStatsFromCache s.cache t.key s.now with
        | some v => some (setThread s i { t with phase := .done (.ok v) })
        | none => some (setThread s i { t with phase := .gateWait })
      | .giveUp, .gateWait =>
        if t.cancelled then
          some (setThread s i { t with phase := .done (.error .cancelled) })
        else none
      | .acquire, .gateWait =>
        if s.token then
          some { setThread s i { t with phase := .cacheRecheck } with token := false }
        else none
      | .recheck, .cacheRecheck =>
        match getUserStatsFromCache s.cache t.key s.now with
        | some v => some (setThread s i { t with phase := .releasingOk v })
        | none => some (setThread s i { t with phase := .building })
      | .build, .building =>
        if env.buildFails t.key then
          some (setThread s i { t with phase := .erroring .requestBuildError })
        else some (setThread s i { t with phase := .fetching })
      | .fetch, .fetching =>
        match env.transport t.key with
        | .ok v =>
          some { setThread s i { t with phase := .storing v, calls := t.calls + 1 } with
                  calls := s.calls + 1 }
        | .error e =>
          some { setThread s i { t with phase := .erroring (.doErr e), calls := t.calls + 1 } with
                  calls := s.calls + 1 }
      | .addCache, .storing v =>
        some { setThread s i { t with phase := .releasingOk v } with
                cache := cacheAdd s.cache t.key ⟨v, s.now⟩ }
      | .finish, .releasingOk v =>
        some { setThread s i { t with phase := .done (.ok v) } with token := true }
      | .finish, .erroring e =>
        some { setThread s i { t with phase := .done (.error e) } with token := true }
      | _, _ => none

/-- Run a trace of events from a state; `none` when some event is not
enabled. -/
def runTrace (env : FetchEnv) : List GoEv → GetStatsSys → Option GetStatsSys
  | [], s => some s
  | ev :: tr, s =>
    match step env ev s with
    | none => none
    | some s2 => runTrace env tr s2

/-- Initial state: `NewOverwatchClient` creates `nextCh` with buffer size 1
and seeds it with exactly one token; each listed raw tag is one goroutine
about to run `GetStats`. -/
def initSys (tags : List String) (now0 : Int) (cache0 : StatsCache) :
    GetStatsSys :=
  { cache := cache0
    token := true
    now := now0
    calls := 0
    threads := tags.map fun tag => ⟨tag, false, 0, .start⟩ }

/-- Phases that hold the gate token. -/
def holdsToken : Phase → Bool
  | .cacheRecheck => true
  | .building => true
  | .fetching => true
  | .storing _ => true
  | .releasingOk _ => true
  | .erroring _ => true
  | _ => false

/-- Number of goroutines currently holding the token. -/
def holders (l : List GoThread) : Nat :=
  l.countP fun t => holdsToken t.phase

/-- The token counted as 0 or 1. -/
def tokenBit (b : Bool) : Nat := if b then 1 else 0

/-- Whether an event is the cache-writing action. -/
def writesCache : GoEv → Bool
  | .thread _ .addCache => true
  | _ => false

/-- Whether an event is a context cancellation. -/
def isCancelEv : GoEv → Bool
  | .cancel _ => true
  | _ => false

/-- A completed goroutine. -/
def GoThread.isDone (t : GoThread) : Bool :=
  match t.phase with
  | .done _ => true
  | _ => false

/-- The token-balance resource invariant: the number of goroutines holding
the token plus the number of tokens in the one-slot channel is exactly 1. -/
def tokenBalanced (s : GetStatsSys) : Prop :=
  holders s.threads + tokenBit s.token = 1

/-- Concrete sample stats used by witnesses. -/
def sampleOverall : OverallStats := ⟨3500, 42, 87, 20, 1, 22, 52⟩

/-- Concrete sample game stats used by witnesses. -/
def sampleGame : GameStats := ⟨100, 200, 50, 2, 30, 40, 5, 10, 25⟩

/-- Concrete sample stats record used by witnesses. -/
def sampleStats : UserStats := ⟨"Name-1234", sampleOverall, sampleGame, "eu"⟩

/-- `sampleStats` with the `level` field at its zero value, as left by a
tolerated field-level type mismatch during decoding. -/
def zeroLevelStats : UserStats :=
  ⟨"Name-1234", { sampleOverall with level := 0 }, sampleGame, "eu"⟩

/-!
## Invariants used to verify the concurrent claims
-/

/-- Per-goroutine invariant of the single-key no-cancellation scenario:
the key is `k`, the context never fires, and the only values flowing out of
the shared state are the stub value `v`. -/
def threadOkC1 (k : String) (v : UserStats) (t : GoThread) : Prop :=
  t.key = k ∧ t.cancelled = false ∧
  (∀ r, t.phase = .done r → r = .ok v) ∧
  (∀ e, t.phase ≠ .erroring e) ∧
  (∀ w, t.phase = .storing w → w = v) ∧
  (∀ w, t.phase = .releasingOk w → w = v)

/-- The cache holds, at key `k`, a fresh entry with the stub value `v`,
stamped during the run. -/
def freshAtC1 (k : String) (v : UserStats) (now0 : Int) (s : GetStatsSys) :
    Prop :=
  ∃ ts, cacheLookup s.cache k = some ⟨v, ts⟩ ∧ now0 ≤ ts ∧ ts ≤ s.now

/-- Progress stages of the single-key scenario: no fetch yet, fetched but
not yet cached, or fetched and cached. -/
def stageC1 (k : String) (v : UserStats) (cache0 : StatsCache) (now0 : Int)
    (s : GetStatsSys) : Prop :=
  (s.calls = 0 ∧ cacheLookup s.cache k = cacheLookup cache0 k ∧
    ∀ (i : Nat) (t : GoThread), s.threads[i]? = some t →
      (∀ r, t.phase ≠ .done r) ∧ (∀ w, t.phase ≠ .storing w) ∧
      (∀ w, t.phase ≠ .releasingOk w)) ∨
  (s.calls = 1 ∧ cacheLookup s.cache k = cacheLookup cache0 k ∧
    ∃ (i : Nat) (t : GoThread), s.threads[i]? = some t ∧ t.phase = .storing v) ∨
  (s.calls = 1 ∧ freshAtC1 k v now0 s ∧
    ∀ (i : Nat) (t : GoThread), s.threads[i]? = some t →
      (∀ w, t.phase ≠ .storing w) ∧ t.phase ≠ .building ∧ t.phase ≠ .fetching)

/-- Full inductive invariant of the single-key no-cancellation scenario. -/
def invC1 (k : String) (v : UserStats) (cache0 : StatsCache) (now0 : Int)
    (tags : List String) (s : GetStatsSys) : Prop :=
  tokenBalanced s ∧ now0 ≤ s.now ∧ s.threads.length = tags.length ∧
  (∀ (i : Nat) (t : GoThread), s.threads[i]? = some t → threadOkC1 k v t) ∧
  (cacheLookup s.cache k = cacheLookup cache0 k ∨ freshAtC1 k v now0 s) ∧
  (s.now ≤ now0 + cacheDurationStats → stageC1 k v cache0 now0 s)

/-- Call-count discipline (any environment, any trace): a goroutine that
has not passed the gate has issued no transport call, a goroutine that
completed with the context-cancellation error issued none either, and the
release-with-error phase never carries the cancellation error. -/
def callsOkC3 (s : GetStatsSys) : Prop :=
  ∀ (i : Nat) (t : GoThread), s.threads[i]? = some t →
    ((t.phase = .start ∨ t.phase = .gateWait) → t.calls = 0) ∧
    (t.phase = .done (.error .cancelled) → t.calls = 0) ∧
    (∀ e, t.phase = .erroring e → e ≠ .cancelled)

/-- Cache-write soundness (any environment, any trace): a goroutine about
to write the cache stages exactly the value the transport successfully
returned for its key. -/
def storingSound (env : FetchEnv) (s : GetStatsSys) : Prop :=
  ∀ (i : Nat) (t : GoThread), s.threads[i]? = some t → ∀ w, t.phase = .storing w →
    env.transport t.key = .ok w

/-!
## Concrete environments and traces used by witnesses and counterexamples
-/

/-- Stub environment: the transport always succeeds with `sampleStats`,
request building never fails. -/
def wEnv : FetchEnv := ⟨fun _ => .ok sampleStats, fun _ => false⟩

/-- Stub environment for two distinct keys. -/
def wEnv2 : FetchEnv :=
  ⟨fun key => .ok { sampleStats with battleTag := key }, fun _ => false⟩

/-- One caller, empty cache. -/
def wInit1 : GetStatsSys := initSys ["Name#1234"] 0 []

/-- Two callers of the same tag, empty cache. -/
def wInit2 : GetStatsSys := initSys ["Name#1234", "Name#1234"] 0 []

/-- C3 counterexample, first part of the schedule: the caller misses the
cache and sits at the gate `select`; then its context fires. -/
def c3cexPre : List GoEv := [.thread 0 .start, .cancel 0]

/-- C3 counterexample, full schedule: with the context already fired and
the token available, Go's `select` is free to pick the token branch; the
caller then proceeds to fetch. -/
def c3cexTr : List GoEv :=
  c3cexPre ++ [.thread 0 .acquire, .thread 0 .recheck, .thread 0 .build,
    .thread 0 .fetch, .thread 0 .addCache, .thread 0 .finish]

/-- Schedule for the C3 witness: the caller misses the cache, its context
fires, and it takes the cancellation branch of the `select`. -/
def c3wTr : List GoEv := [.thread 0 .start, .cancel 0, .thread 0 .giveUp]

/-- Schedule for the C2 witness: the caller misses the cache and acquires
the token. -/
def c2wTr : List GoEv := [.thread 0 .start, .thread 0 .acquire]

/-- Schedule for the C1 witness: both same-tag callers miss the cache and
queue; the first fetches, stores and releases; the second then acquires and
is served from the cache. -/
def c1wTr : List GoEv :=
  [.thread 0 .start, .thread 1 .start, .thread 0 .acquire,
   .thread 0 .recheck, .thread 0 .build, .thread 0 .fetch,
   .thread 0 .addCache, .thread 0 .finish, .thread 1 .acquire,
   .thread 1 .recheck, .thread 1 .finish]

/-- A one-entry cache fetched at instant 0, for the C4 witness. -/
def c4wCache : StatsCache := [("Name-1234", ⟨sampleStats, 0⟩)]

/-- A 429 response with `Retry-After: 1` (one millisecond wait). -/
def w429 : DiscordResp := ⟨429, "1", false⟩

/-- A 200 response with a decodable body. -/
def w200 : DiscordResp := ⟨200, "", false⟩

/-- A 429 response with `Retry-After: 0`: its parsed wait is zero, so the
retry loop breaks instead of retrying. -/
def cex429zero : DiscordResp := ⟨429, "0", false⟩

/-- Spec test input for C5: three regions, two empty, one with games
played. -/
def c5Three : List (String × Option UserStats) :=
  [("us", none), ("eu", some sampleStats), ("kr", none)]

/-- Spec test input for C5: all three regions empty. -/
def c5AllNone : List (String × Option UserStats) :=
  [("us", none), ("eu", none), ("kr", none)]

/-!
## Helper lemmas
-/

theorem countP_set_add (p : GoThread → Bool) (l : List GoThread) (i : Nat)
    (t t2 : GoThread) (h : l[i]? = some t) :
    (l.set i t2).countP p + (if p t then 1 else 0) =
      l.countP p + (if p t2 then 1 else 0) := by
  obtain ⟨hlen, hget⟩ := List.getElem?_eq_some.mp h
  have hpos : (if p t then 1 else 0) ≤ l.countP p := by
    by_cases hp : p t
    · simp only [hp, if_true]
      exact List.countP_pos.mpr ⟨t, List.getElem?_mem h, hp⟩
    · simp [hp]
  have := List.countP_set p l i t2 hlen
  rw [hget] at this
  omega

theorem countP_one_of_holder (p : GoThread → Bool) (l : List GoThread) (i : Nat)
    (t : GoThread) (h : l[i]? = some t) (hp : p t) : 1 ≤ l.countP p :=
  List.countP_pos.mpr ⟨t, List.getElem?_mem h, hp⟩

theorem countP_two_of_holders (p : GoThread → Bool) (l : List GoThread)
    (i j : Nat) (a b : GoThread) (hij : i ≠ j) (ha : l[i]? = some a)
    (hb : l[j]? = some b) (hpa : p a) (hpb : p b) : 2 ≤ l.countP p := by
  induction l generalizing i j with
  | nil => simp at ha
  | cons x xs ih =>
    match i, j with
    | 0, 0 => exact absurd rfl hij
    | 0, j + 1 =>
      simp only [List.getElem?_cons_zero, Option.some.injEq] at ha
      simp only [List.getElem?_cons_succ] at hb
      have h1 := countP_one_of_holder p xs j b hb hpb
      rw [List.countP_cons]
      have hpx : p x = true := by rw [ha]; exact hpa
      rw [if_pos hpx]
      omega
    | i + 1, 0 =>
      simp only [List.getElem?_cons_zero, Option.some.injEq] at hb
      simp only [List.getElem?_cons_succ] at ha
      have h1 := countP_one_of_holder p xs i a ha hpa
      rw [List.countP_cons]
      have hpx : p x = true := by rw [hb]; exact hpb
      rw [if_pos hpx]
      omega
    | i + 1, j + 1 =>
      simp only [List.getElem?_cons_succ] at ha hb
      have := ih i j (by omega) ha hb
      rw [List.countP_cons]
      omega

theorem runTrace_inv (env : FetchEnv) (A : GoEv → Prop) (P : GetStatsSys → Prop)
    (hstep : ∀ ev s s2, A ev → P s → step env ev s = some s2 → P s2) :
    ∀ tr s s2, (∀ ev ∈ tr, A ev) → P s → runTrace env tr s = some s2 → P s2 := by
  intro tr
  induction tr with
  | nil =>
    intro s s2 _ hP h
    simp only [runTrace, Option.some.injEq] at h
    exact h ▸ hP
  | cons ev tr ih =>
    intro s s2 hA hP h
    simp only [runTrace] at h
    cases hs : step env ev s with
    | none => rw [hs] at h; cases h
    | some s1 =>
      rw [hs] at h
      exact ih s1 s2 (fun e he => hA e (List.mem_cons_of_mem _ he))
        (hstep ev s s1 (hA ev (List.mem_cons_self _ _)) hP hs) h

/-- Inversion of a goroutine step: the exhaustive list of transitions of
`GetStats` (each disjunct records the action, the enabling condition, and
the successor state). -/
theorem step_thread_inv (env : FetchEnv) (i : Nat) (a : GoAct)
    (s s2 : GetStatsSys) (h : step env (.thread i a) s = some s2) :
    ∃ t, s.threads[i]? = some t ∧
      ((a = .start ∧ t.phase = .start ∧ ∃ v,
          getUserStatsFromCache s.cache t.key s.now = some v ∧
          s2 = setThread s i { t with phase := .done (.ok v) }) ∨
       (a = .start ∧ t.phase = .start ∧
          getUserStatsFromCache s.cache t.key s.now = none ∧
          s2 = setThread s i { t with phase := .gateWait }) ∨
       (a = .giveUp ∧ t.phase = .gateWait ∧ t.cancelled = true ∧
          s2 = setThread s i { t with phase := .done (.error .cancelled) }) ∨
       (a = .acquire ∧ t.phase = .gateWait ∧ s.token = true ∧
          s2 = { setThread s i { t with phase := .cacheRecheck } with token := false }) ∨
       (a = .recheck ∧ t.phase = .cacheRecheck ∧ ∃ v,
          getUserStatsFromCache s.cache t.key s.now = some v ∧
          s2 = setThread s i { t with phase := .releasingOk v }) ∨
       (a = .recheck ∧ t.phase = .cacheRecheck ∧
          getUserStatsFromCache s.cache t.key s.now = none ∧
          s2 = setThread s i { t with phase := .building }) ∨
       (a = .build ∧ t.phase = .building ∧ env.buildFails t.key = true ∧
          s2 = setThread s i { t with phase := .erroring .requestBuildError }) ∨
       (a = .build ∧ t.phase = .building ∧ env.buildFails t.key = false ∧
          s2 = setThread s i { t with phase := .fetching }) ∨
       (a = .fetch ∧ t.phase = .fetching ∧ ∃ v,
          env.transport t.key = .ok v ∧
          s2 = { setThread s i { t with phase := .storing v, calls := t.calls + 1 } with
                  calls := s.calls + 1 }) ∨
       (a = .fetch ∧ t.phase = .fetching ∧ ∃ e,
          env.transport t.key = .error e ∧
          s2 = { setThread s i { t with phase := .erroring (.doErr e), calls := t.calls + 1 } with
                  calls := s.calls + 1 }) ∨
       (a = .addCache ∧ ∃ v, t.phase = .storing v ∧
          s2 = { setThread s i { t with phase := .releasingOk v } with
                  cache := cacheAdd s.cache t.key ⟨v, s.now⟩ }) ∨
       (a = .finish ∧ ∃ v, t.phase = .releasingOk v ∧
          s2 = { setThread s i { t with phase := .done (.ok v) } with token := true }) ∨
       (a = .finish ∧ ∃ e, t.phase = .erroring e ∧
          s2 = { setThread s i { t with phase := .done (.error e) } with token := true })) := by
  rcases heq : s.threads[i]? with _ | t
  · simp only [step, heq] at h
    exact Option.noConfusion h
  · refine ⟨t, rfl, ?_⟩
    cases a with
    | start =>
      cases htp : t.phase <;> simp only [step, heq, htp] at h <;>
        try exact Option.noConfusion h
      rcases hc : getUserStatsFromCache s.cache t.key s.now with _ | v <;>
          rw [hc] at h <;> injection h with h <;> subst h
      · exact Or.inr (Or.inl ⟨rfl, rfl, rfl, rfl⟩)
      · exact Or.inl ⟨rfl, rfl, v, rfl, rfl⟩
    | giveUp =>
      cases htp : t.phase <;> simp only [step, heq, htp] at h <;>
        try exact Option.noConfusion h
      rcases hcanc : t.cancelled <;> rw [hcanc] at h
      · exact Option.noConfusion h
      · injection h with h
        subst h
        exact Or.inr (Or.inr (Or.inl ⟨rfl, rfl, rfl, rfl⟩))
    | acquire =>
      cases htp : t.phase <;> simp only [step, heq, htp] at h <;>
        try exact Option.noConfusion h
      rcases htok : s.token <;> rw [htok] at h
      · exact Option.noConfusion h
      · injection h with h
        subst h
        iterate 3 apply Or.inr
        exact Or.inl ⟨rfl, rfl, rfl, rfl⟩
    | recheck =>
      cases htp : t.phase <;> simp only [step, heq, htp] at h <;>
        try exact Option.noConfusion h
      rcases hc : getUserStatsFromCache s.cache t.key s.now with _ | v <;>
          rw [hc] at h <;> injection h with h <;> subst h
      · iterate 5 apply Or.inr
        exact Or.inl ⟨rfl, rfl, rfl, rfl⟩
      · iterate 4 apply Or.inr
        exact Or.inl ⟨rfl, rfl, v, rfl, rfl⟩
    | build =>
      cases htp : t.phase <;> simp only [step, heq, htp] at h <;>
        try exact Option.noConfusion h
      rcases hbf : env.buildFails t.key <;> rw [hbf] at h <;>
          injection h with h <;> subst h
      · iterate 7 apply Or.inr
        exact Or.inl ⟨rfl, rfl, rfl, rfl⟩
      · iterate 6 apply Or.inr
        exact Or.inl ⟨rfl, rfl, rfl, rfl⟩
    | fetch =>
      cases htp : t.phase <;> simp only [step, heq, htp] at h <;>
        try exact Option.noConfusion h
      rcases htr : env.transport t.key with v | e <;> rw [htr] at h <;>
          injection h with h <;> subst h
      · iterate 8 apply Or.inr
        exact Or.inl ⟨rfl, rfl, v, rfl, rfl⟩
      · iterate 9 apply Or.inr
        exact Or.inl ⟨rfl, rfl, e, rfl, rfl⟩
    | addCache =>
      cases htp : t.phase <;> simp only [step, heq, htp] at h <;>
        try exact Option.noConfusion h
      injection h with h
      subst h
      iterate 10 apply Or.inr
      exact Or.inl ⟨rfl, _, rfl, rfl⟩
    | finish =>
      cases htp : t.phase <;> simp only [step, heq, htp] at h <;>
        try exact Option.noConfusion h
      · injection h with h
        subst h
        iterate 11 apply Or.inr
        exact Or.inl ⟨rfl, _, rfl, rfl⟩
      · injection h with h
        subst h
        iterate 12 apply Or.inr
        exact ⟨rfl, _, rfl, rfl⟩

/-- Time never decreases along a step. -/
theorem step_now_le (env : FetchEnv) (ev : GoEv) (s s2 : GetStatsSys)
    (h : step env ev s = some s2) : s.now ≤ s2.now := by
  cases ev with
  | tick d =>
    simp only [step, Option.some.injEq] at h
    subst h
    exact le_add_of_nonneg_right (Int.natCast_nonneg d)
  | cancel i =>
    simp only [step] at h
    split at h
    · exact Option.noConfusion h
    · simp only [Option.some.injEq] at h
      subst h
      simp [setThread]
  | thread i a =>
    obtain ⟨t, heq, hc⟩ := step_thread_inv env i a s s2 h
    rcases hc with ⟨-, -, v, -, rfl⟩ | ⟨-, -, -, rfl⟩ | ⟨-, -, -, rfl⟩ |
        ⟨-, -, -, rfl⟩ | ⟨-, -, v, -, rfl⟩ | ⟨-, -, -, rfl⟩ | ⟨-, -, -, rfl⟩ |
        ⟨-, -, -, rfl⟩ | ⟨-, -, v, -, rfl⟩ | ⟨-, -, e, -, rfl⟩ |
        ⟨-, v, -, rfl⟩ | ⟨-, v, -, rfl⟩ | ⟨-, e, -, rfl⟩ <;>
      simp [setThread]

theorem balance_set (l : List GoThread) (i : Nat) (t t2 : GoThread)
    (tokOld tokNew : Bool) (heq : l[i]? = some t)
    (hb : holders l + tokenBit tokOld = 1)
    (hdelta : (if holdsToken t.phase then 1 else 0) + tokenBit tokOld =
        (if holdsToken t2.phase then 1 else 0) + tokenBit tokNew ∨
      ((if holdsToken t.phase then 1 else 0) = 1 ∧ tokenBit tokNew = 1 ∧
        (if holdsToken t2.phase then 1 else 0) = 0)) :
    holders (l.set i t2) + tokenBit tokNew = 1 := by
  have hcs := countP_set_add (fun u => holdsToken u.phase) l i t t2 heq
  simp only [] at hcs
  have h1 : (if holdsToken t.phase then 1 else 0) ≤ holders l := by
    by_cases hp : holdsToken t.phase
    · rw [if_pos hp]
      exact countP_one_of_holder (fun u => holdsToken u.phase) l i t heq
        (by simpa using hp)
    · rw [if_neg hp]
      exact Nat.zero_le _
  unfold holders at *
  rcases hdelta with hd | ⟨hd1, hd2, hd3⟩ <;> omega

/-- Every step preserves the token-balance invariant. -/
theorem step_tokenBalanced (env : FetchEnv) (ev : GoEv) (s s2 : GetStatsSys)
    (h : step env ev s = some s2) (hb : tokenBalanced s) : tokenBalanced s2 := by
  unfold tokenBalanced at hb ⊢
  cases ev with
  | tick d =>
    simp only [step, Option.some.injEq] at h
    subst h
    simpa using hb
  | cancel i =>
    simp only [step] at h
    split at h
    · exact Option.noConfusion h
    · next t heq =>
      simp only [Option.some.injEq] at h
      subst h
      simp only [setThread]
      exact balance_set s.threads i t _ s.token s.token heq hb (Or.inl rfl)
  | thread i a =>
    obtain ⟨t, heq, hc⟩ := step_thread_inv env i a s s2 h
    rcases hc with ⟨-, htp, v, -, rfl⟩ | ⟨-, htp, -, rfl⟩ | ⟨-, htp, -, rfl⟩ |
        ⟨-, htp, htok, rfl⟩ | ⟨-, htp, v, -, rfl⟩ | ⟨-, htp, -, rfl⟩ |
        ⟨-, htp, -, rfl⟩ | ⟨-, htp, -, rfl⟩ | ⟨-, htp, v, -, rfl⟩ |
        ⟨-, htp, e, -, rfl⟩ | ⟨-, v, htp, rfl⟩ | ⟨-, v, htp, rfl⟩ |
        ⟨-, e, htp, rfl⟩ <;>
      simp only [setThread] <;>
      first
      | exact balance_set s.threads i t _ s.token s.token heq hb
          (Or.inl (by simp [holdsToken, htp]))
      | exact balance_set s.threads i t _ s.token false heq hb
          (Or.inl (by simp [holdsToken, tokenBit, htp, htok]))
      | exact balance_set s.threads i t _ s.token true heq hb
          (Or.inr ⟨by simp [holdsToken, htp], rfl, by simp [holdsToken]⟩)

/-- The normalized form contains no `#`. -/
theorem normalizeChars_no_hash (cs : List Char) : '#' ∉ normalizeChars cs := by
  induction cs with
  | nil => simp [normalizeChars]
  | cons c cs ih =>
    simp only [normalizeChars, List.mem_cons]
    rintro (h | h)
    · by_cases hc : c = '#'
      · rw [if_pos hc] at h
        exact absurd h.symm (by decide)
      · rw [if_neg hc] at h
        exact hc h.symm
    · exact ih h

/-- `normalizeChars` is the identity on hash-free strings. -/
theorem normalizeChars_id_of_no_hash (cs : List Char) (h : '#' ∉ cs) :
    normalizeChars cs = cs := by
  induction cs with
  | nil => rfl
  | cons c cs ih =>
    simp only [List.mem_cons, not_or] at h
    simp only [normalizeChars]
    rw [if_neg (fun hc => h.1 hc.symm), ih h.2]

theorem normalizeChars_idem (cs : List Char) :
    normalizeChars (normalizeChars cs) = normalizeChars cs :=
  normalizeChars_id_of_no_hash _ (normalizeChars_no_hash cs)

theorem normalizeTag_idem (s : String) :
    normalizeTag (normalizeTag s) = normalizeTag s :=
  congrArg String.mk (normalizeChars_idem s.data)

/-- C9: the key normalization applied by `GetStats` (replacing every `#` of
the raw tag by `-`) is a deterministic function — equal inputs give equal
normalized keys — and idempotent, so a call made with the raw form and one
made with the already-normalized form of a tag use the same cache key. -/
theorem getStats_key_normalization (t1 t2 : String) (heq : t1 = t2) :
    normalizeTag t1 = normalizeTag t2 ∧
    normalizeTag (normalizeTag t1) = normalizeTag t1 ∧
    ∀ (c : Bool) (n : Nat) (p : Phase) (c2 : Bool) (n2 : Nat) (p2 : Phase),
      GoThread.key ⟨normalizeTag t1, c, n, p⟩ = GoThread.key ⟨t1, c2, n2, p2⟩ := by
  subst heq
  refine ⟨rfl, normalizeTag_idem t1, ?_⟩
  intro c n p c2 n2 p2
  unfold GoThread.key
  exact normalizeTag_idem t1

/-- Witness for C9 at the spec's example tag. -/
theorem getStats_key_normalization_witness :
    normalizeTag (normalizeTag "Name#1234") = normalizeTag "Name#1234" ∧
    GoThread.key ⟨normalizeTag "Name#1234", false, 0, .start⟩ =
      GoThread.key ⟨"Name#1234", false, 0, .start⟩ ∧
    normalizeTag "Name#1234" = "Name-1234" :=
  ⟨(getStats_key_normalization "Name#1234" "Name#1234" rfl).2.1,
   (getStats_key_normalization "Name#1234" "Name#1234" rfl).2.2 false 0 .start
     false 0 .start,
   by decide⟩

/-- C4: a cache `get` at `fetchedAt + TTL + ε` returns absent, at
`fetchedAt + TTL - ε` (entry present) returns the stored value, and an
expired-but-present entry behaves exactly like an absent one; the get
itself performs no refresh (it is a pure read by construction). -/
theorem cache_ttl_boundary (cache : StatsCache) (key : String)
    (e : UserStatsCacheEntry) (he : cacheLookup cache key = some e) :
    (∀ eps : Int, 0 < eps →
      getUserStatsFromCache cache key (e.addedAt + cacheDurationStats + eps) = none) ∧
    (∀ eps : Int, 0 < eps →
      getUserStatsFromCache cache key (e.addedAt + cacheDurationStats - eps) =
        some e.stats) ∧
    (∀ now : Int, cacheDurationStats < now - e.addedAt →
      getUserStatsFromCache cache key now = none) := by
  refine ⟨fun eps heps => ?_, fun eps heps => ?_, fun now hnow => ?_⟩ <;>
      simp only [getUserStatsFromCache, he]
  · have hcond : ¬(e.addedAt + cacheDurationStats + eps - e.addedAt ≤
        cacheDurationStats) := by omega
    rw [if_neg hcond]
  · have hcond : e.addedAt + cacheDurationStats - eps - e.addedAt ≤
        cacheDurationStats := by omega
    rw [if_pos hcond]
  · have hcond : ¬(now - e.addedAt ≤ cacheDurationStats) := by omega
    rw [if_neg hcond]

/-- Witness for C4 on a concrete one-entry cache with TTL boundary ε = 1ns. -/
theorem cache_ttl_boundary_witness :
    getUserStatsFromCache c4wCache "Name-1234" (0 + cacheDurationStats + 1) = none ∧
    getUserStatsFromCache c4wCache "Name-1234" (0 + cacheDurationStats - 1) =
      some sampleStats :=
  ⟨(cache_ttl_boundary c4wCache "Name-1234" ⟨sampleStats, 0⟩ rfl).1 1 (by decide),
   (cache_ttl_boundary c4wCache "Name-1234" ⟨sampleStats, 0⟩ rfl).2.1 1 (by decide)⟩

/-- C7: on a 2xx response, a decode failing only with a field-level type
mismatch yields a successful result carrying the partially populated value
(mismatched field at its zero value), while any other decode failure is
returned as the decode error with no result. -/
theorem owDo_decode_tolerance (statusCode : Int)
    (hs : 200 ≤ statusCode ∧ statusCode ≤ 299) :
    (∀ partVal, owDoResult (.response statusCode (.typeMismatch partVal)) =
      .ok partVal) ∧
    owDoResult (.response statusCode .structuralError) = .error .decodeError := by
  constructor
  · intro partVal
    simp [owDoResult, CheckResponse, hs.1, hs.2]
  · simp [owDoResult, CheckResponse, hs.1, hs.2]

/-- Witness for C7: a 200 response whose `level` field was sent with the
wrong type decodes to a success with `level` at zero. -/
theorem owDo_decode_tolerance_witness :
    owDoResult (.response 200 (.typeMismatch zeroLevelStats)) = .ok zeroLevelStats ∧
    owDoResult (.response 200 .structuralError) = .error .decodeError :=
  ⟨(owDo_decode_tolerance 200 (by decide)).1 zeroLevelStats,
   (owDo_decode_tolerance 200 (by decide)).2⟩

/-- C10: the Overwatch client's `Do` consumes exactly one HTTP exchange per
call and never sleeps, and every non-2xx status — 429 included — is
immediately surfaced as an `ErrorResponse` carrying the status code, with
no result. -/
theorem owDo_one_request_no_retry :
    (∀ e rest, owDoTrace (e :: rest) = (owDoResult e, 1, 0)) ∧
    (∀ (statusCode : Int) (decode : DecodeOutcome),
      ¬(200 ≤ statusCode ∧ statusCode ≤ 299) →
      owDoResult (.response statusCode decode) =
        .error (.errorResponse statusCode)) := by
  constructor
  · intro e rest
    rfl
  · intro statusCode decode hsc
    simp [owDoResult, CheckResponse, hsc]

/-- Witness for C10 at a 429 response: one exchange consumed, no sleep, the
429 surfaced as an error. -/
theorem owDo_one_request_no_retry_witness :
    owDoTrace [.response 429 (.ok sampleStats)] =
      (.error (.errorResponse 429), 1, 0) := by
  have h1 := owDo_one_request_no_retry.1 (.response 429 (.ok sampleStats)) []
  have h2 := owDo_one_request_no_retry.2 429 (.ok sampleStats) (by decide)
  rw [h1, h2]

/-- C6 (amended): for every 429 response whose computed wait is positive —
including an absent or unparseable `Retry-After` header, which falls back
to the positive default of 10s — `Do` sleeps exactly that wait and then
retries the same request against the remaining schedule; a cancellation
that fires during the sleep makes the retried request creation fail with
`Cancelled` (the retry is never completed; the sleep itself runs to the
end); and when the retry returns a decodable 200 the caller receives the
successful 200 result, with total sleep equal to the configured wait. A 429
whose `Retry-After` parses to a non-positive value is surfaced immediately
as an error without sleep or retry (see the counterexample). -/
theorem restDo_429_retry (cancelAt : Option Int) (hasV : Bool)
    (resp : DiscordResp) (rest : List DiscordResp) (now : Int)
    (h429 : resp.statusCode = 429) (hra : 0 < ExtractRetryAfter resp)
    (hctx : ctxDoneAt cancelAt now = false) :
    (restDo cancelAt hasV (resp :: rest) now =
      ⟨(restDo cancelAt hasV rest (now + ExtractRetryAfter resp)).result,
       (restDo cancelAt hasV rest (now + ExtractRetryAfter resp)).consumed + 1,
       (restDo cancelAt hasV rest (now + ExtractRetryAfter resp)).slept +
         ExtractRetryAfter resp⟩) ∧
    (goAtoi resp.retryAfterHeader = none →
      ExtractRetryAfter resp = defaultRetryAfter) ∧
    (∀ n : Int, goAtoi resp.retryAfterHeader = some n →
      ExtractRetryAfter resp = n * millisecondNs) ∧
    (ctxDoneAt cancelAt (now + ExtractRetryAfter resp) = true →
      restDo cancelAt hasV (resp :: rest) now =
        ⟨.cancelled, 1, ExtractRetryAfter resp⟩) ∧
    (∀ (resp2 : DiscordResp) (rest2 : List DiscordResp),
      rest = resp2 :: rest2 → resp2.statusCode = 200 →
      resp2.decodeFails = false →
      ctxDoneAt cancelAt (now + ExtractRetryAfter resp) = false →
      restDo cancelAt hasV (resp :: rest) now =
        ⟨.ok 200, 2, ExtractRetryAfter resp⟩) := by
  have hmain : restDo cancelAt hasV (resp :: rest) now =
      ⟨(restDo cancelAt hasV rest (now + ExtractRetryAfter resp)).result,
       (restDo cancelAt hasV rest (now + ExtractRetryAfter resp)).consumed + 1,
       (restDo cancelAt hasV rest (now + ExtractRetryAfter resp)).slept +
         ExtractRetryAfter resp⟩ := by
    simp [restDo, hctx, hra]
  refine ⟨hmain, ?_, ?_, ?_, ?_⟩
  · intro hparse
    simp [ExtractRetryAfter, h429, hparse]
  · intro n hparse
    simp [ExtractRetryAfter, h429, hparse]
  · intro hcd
    rw [hmain]
    cases rest with
    | nil => simp [restDo, hcd]
    | cons r2 rest2 => simp [restDo, hcd]
  · intro resp2 rest2 hrest h200 hdec hcd
    subst hrest
    rw [hmain]
    have hra2 : ExtractRetryAfter resp2 = 0 := by
      simp [ExtractRetryAfter, h200]
    simp [restDo, hcd, hra2, h200, hdec]

/-- Witness for C6: `Retry-After: 1` then 200 — sleep then success on the
second request; default wait on an absent header; cancellation during the
sleep ends the call with `Cancelled` after one request. -/
theorem restDo_429_retry_witness :
    restDo none false [w429, w200] 0 = ⟨.ok 200, 2, ExtractRetryAfter w429⟩ ∧
    ExtractRetryAfter ⟨429, "", false⟩ = defaultRetryAfter ∧
    ExtractRetryAfter w429 = 1 * millisecondNs ∧
    restDo (some 500000) false [w429, w200] 0 =
      ⟨.cancelled, 1, ExtractRetryAfter w429⟩ := by
  refine ⟨?_, ?_, ?_, ?_⟩
  · exact (restDo_429_retry none false w429 [w200] 0 rfl (by decide)
      (by decide)).2.2.2.2 w200 [] rfl rfl rfl (by decide)
  · exact (restDo_429_retry none false ⟨429, "", false⟩ [] 0 rfl (by decide)
      (by decide)).2.1 (by decide)
  · exact (restDo_429_retry none false w429 [] 0 rfl (by decide)
      (by decide)).2.2.1 1 (by decide)
  · exact (restDo_429_retry (some 500000) false w429 [w200] 0 rfl (by decide)
      (by decide)).2.2.2.1 (by decide)

/-- Counterexample to C6 as stated: a 429 whose `Retry-After` header parses
to 0 is not retried at all — the loop breaks, no sleep happens, exactly one
request is sent, and the caller receives the 429 as an error instead of the
200 the retry would have returned. -/
theorem restDo_429_zero_counterexample :
    restDo none false [cex429zero, w200] 0 = ⟨.errorResponse 429, 1, 0⟩ ∧
    (restDo none false [cex429zero, w200] 0).result ≠ .ok 200 ∧
    (restDo none false [cex429zero, w200] 0).consumed = 1 ∧
    (restDo none false [cex429zero, w200] 0).slept = 0 := by
  exact ⟨by decide, by decide, by decide, by decide⟩

theorem selectRegion_all_none :
    ∀ (cands : List (String × Option UserStats)),
    (∀ p ∈ cands, p.2 = none) → selectRegion cands = none := by
  intro cands
  induction cands with
  | nil => intro _; rfl
  | cons p rest ih =>
    intro h
    obtain ⟨r, o⟩ := p
    have ho : o = none := h (r, o) (List.mem_cons_self _ _)
    subst ho
    exact ih fun q hq => h q (List.mem_cons_of_mem _ hq)

theorem selectRegion_not_none :
    ∀ (cands : List (String × Option UserStats)) (r2 : String)
      (st2 : UserStats), (r2, some st2) ∈ cands → selectRegion cands ≠ none := by
  intro cands
  induction cands with
  | nil =>
    intro r2 st2 hm
    simp at hm
  | cons p rest ih =>
    intro r2 st2 hm
    obtain ⟨r, o⟩ := p
    rcases List.mem_cons.mp hm with heq | hm2
    · cases heq
      cases hsel : selectRegion rest <;> simp [selectRegion, hsel] <;>
        split <;> simp
    · cases o with
      | none => exact ih r2 st2 hm2
      | some st1 =>
        cases hsel : selectRegion rest <;> simp [selectRegion, hsel] <;>
          split <;> simp

theorem selectRegion_spec :
    ∀ (cands : List (String × Option UserStats)) (r : String) (st : UserStats),
    selectRegion cands = some (r, st) →
    (r, some st) ∈ cands ∧
    ∀ (r2 : String) (st2 : UserStats), (r2, some st2) ∈ cands →
      st2.overallStats.games ≤ st.overallStats.games := by
  intro cands
  induction cands with
  | nil =>
    intro r st h
    simp [selectRegion] at h
  | cons p rest ih =>
    intro r st h
    obtain ⟨r1, o1⟩ := p
    cases o1 with
    | none =>
      have h2 : selectRegion rest = some (r, st) := h
      obtain ⟨hmem, hmax⟩ := ih r st h2
      refine ⟨List.mem_cons_of_mem _ hmem, ?_⟩
      intro r2 st2 hm
      rcases List.mem_cons.mp hm with heq | hm2
      · exact absurd (congrArg Prod.snd heq) (by simp)
      · exact hmax r2 st2 hm2
    | some st1 =>
      cases hsel : selectRegion rest with
      | none =>
        have h2 : some (r1, st1) = some (r, st) := by
          simpa [selectRegion, hsel] using h
        obtain ⟨hr, hst⟩ : r1 = r ∧ st1 = st := by
          simpa using h2
        subst hr
        subst hst
        refine ⟨List.mem_cons_self _ _, ?_⟩
        intro r2 st2 hm
        rcases List.mem_cons.mp hm with heq | hm2
        · have : st2 = st1 := by
            have := congrArg Prod.snd heq
            simpa using this
          subst this
          exact le_refl _
        · exact absurd hsel (selectRegion_not_none rest r2 st2 hm2)
      | some p2 =>
        obtain ⟨rb, stb⟩ := p2
        obtain ⟨hmemb, hmaxb⟩ := ih rb stb hsel
        by_cases hgt : stb.overallStats.games > st1.overallStats.games
        · have h2 : some (rb, stb) = some (r, st) := by
            simpa [selectRegion, hsel, hgt] using h
          obtain ⟨hr, hst⟩ : rb = r ∧ stb = st := by simpa using h2
          subst hr
          subst hst
          refine ⟨List.mem_cons_of_mem _ hmemb, ?_⟩
          intro r2 st2 hm
          rcases List.mem_cons.mp hm with heq | hm2
          · have : st2 = st1 := by
              have := congrArg Prod.snd heq
              simpa using this
            subst this
            omega
          · exact hmaxb r2 st2 hm2
        · have h2 : some (r1, st1) = some (r, st) := by
            simpa [selectRegion, hsel, hgt] using h
          obtain ⟨hr, hst⟩ : r1 = r ∧ st1 = st := by simpa using h2
          subst hr
          subst hst
          refine ⟨List.mem_cons_self _ _, ?_⟩
          intro r2 st2 hm
          rcases List.mem_cons.mp hm with heq | hm2
          · have : st2 = st1 := by
              have := congrArg Prod.snd heq
              simpa using this
            subst this
            exact le_refl _
          · have := hmaxb r2 st2 hm2
            omega

/-- C5: when the response carries several per-region candidates, the owapi
client picks a non-empty candidate with the highest games-played counter
and attaches that region's label to the result; when every candidate is
empty or absent it fails with the `UpstreamError`-class
"no competitive stats found". (The owapi package is modelled from the spec;
it is not among the provided sources.) -/
theorem owapi_region_selection :
    (∀ cands : List (String × Option UserStats),
      (∀ p ∈ cands, p.2 = none) →
      owapiSelectStats cands = .upstreamError "no competitive stats found") ∧
    (∀ (cands : List (String × Option UserStats)) (r : String)
      (st : UserStats), selectRegion cands = some (r, st) →
      (r, some st) ∈ cands ∧
      (∀ (r2 : String) (st2 : UserStats), (r2, some st2) ∈ cands →
        st2.overallStats.games ≤ st.overallStats.games) ∧
      owapiSelectStats cands = .ok { st with region := r }) := by
  constructor
  · intro cands h
    unfold owapiSelectStats
    rw [selectRegion_all_none cands h]
  · intro cands r st h
    obtain ⟨hmem, hmax⟩ := selectRegion_spec cands r st h
    refine ⟨hmem, hmax, ?_⟩
    unfold owapiSelectStats
    rw [h]

/-- Witness for C5 on the spec's synthetic inputs: three regions with two
empty candidates select the non-empty one's label; three empty candidates
produce the upstream error. -/
theorem owapi_region_selection_witness :
    owapiSelectStats c5AllNone = .upstreamError "no competitive stats found" ∧
    ("eu", some sampleStats) ∈ c5Three ∧
    owapiSelectStats c5Three = .ok { sampleStats with region := "eu" } := by
  have h1 := owapi_region_selection.1 c5AllNone (by decide)
  have h2 := owapi_region_selection.2 c5Three "eu" sampleStats (by decide)
  exact ⟨h1, h2.1, h2.2.2⟩

theorem holdsToken_eq_false_of_isDone (t : GoThread) (h : t.isDone = true) :
    holdsToken t.phase = false := by
  cases htp : t.phase <;> simp [GoThread.isDone, htp] at h <;>
    simp [holdsToken, htp]

/-- A `List.set` preserves a pointwise property when the new element
satisfies it. -/
theorem forall_getElem?_set {P : GoThread → Prop} (l : List GoThread)
    (i : Nat) (t2 : GoThread)
    (hold : ∀ (j : Nat) (t : GoThread), l[j]? = some t → P t) (hnew : P t2) :
    ∀ (j : Nat) (t : GoThread), (l.set i t2)[j]? = some t → P t := by
  intro j t h
  rw [List.getElem?_set] at h
  split at h
  · split at h
    · injection h with h
      exact h ▸ hnew
    · exact Option.noConfusion h
  · exact hold j t h

theorem getCache_none (cache : StatsCache) (key : String) (now : Int)
    (h : cacheLookup cache key = none) :
    getUserStatsFromCache cache key now = none := by
  unfold getUserStatsFromCache
  rw [h]

theorem getCache_stale (cache : StatsCache) (key : String) (now : Int)
    (e : UserStatsCacheEntry) (h : cacheLookup cache key = some e)
    (hst : ¬(now - e.addedAt ≤ cacheDurationStats)) :
    getUserStatsFromCache cache key now = none := by
  unfold getUserStatsFromCache
  rw [h]
  show (if now - e.addedAt ≤ cacheDurationStats then some e.stats else none) =
    none
  rw [if_neg hst]

theorem getCache_fresh (cache : StatsCache) (key : String) (now : Int)
    (e : UserStatsCacheEntry) (h : cacheLookup cache key = some e)
    (hf : now - e.addedAt ≤ cacheDurationStats) :
    getUserStatsFromCache cache key now = some e.stats := by
  unfold getUserStatsFromCache
  rw [h]
  show (if now - e.addedAt ≤ cacheDurationStats then some e.stats else none) =
    some e.stats
  rw [if_pos hf]

/-- The initial state is balanced: one token, no holders. -/
theorem tokenBalanced_init (tags : List String) (now0 : Int)
    (cache0 : StatsCache) : tokenBalanced (initSys tags now0 cache0) := by
  unfold tokenBalanced initSys holders tokenBit
  simp only [List.countP_map]
  rw [List.countP_eq_zero.mpr (fun tag _ => by
    simp [Function.comp, holdsToken])]
  simp

/-- Steps do not change the number of goroutines. -/
theorem step_threads_length (env : FetchEnv) (ev : GoEv) (s s2 : GetStatsSys)
    (h : step env ev s = some s2) : s2.threads.length = s.threads.length := by
  cases ev with
  | tick d =>
    simp only [step, Option.some.injEq] at h
    subst h
    rfl
  | cancel i =>
    simp only [step] at h
    split at h
    · exact Option.noConfusion h
    · simp only [Option.some.injEq] at h
      subst h
      simp [setThread]
  | thread i a =>
    obtain ⟨t, heq, hc⟩ := step_thread_inv env i a s s2 h
    rcases hc with ⟨-, -, v, -, rfl⟩ | ⟨-, -, -, rfl⟩ | ⟨-, -, -, rfl⟩ |
        ⟨-, -, -, rfl⟩ | ⟨-, -, v, -, rfl⟩ | ⟨-, -, -, rfl⟩ | ⟨-, -, -, rfl⟩ |
        ⟨-, -, -, rfl⟩ | ⟨-, -, v, -, rfl⟩ | ⟨-, -, e, -, rfl⟩ |
        ⟨-, v, -, rfl⟩ | ⟨-, v, -, rfl⟩ | ⟨-, e, -, rfl⟩ <;>
      simp [setThread]

/-- C2: `NewOverwatchClient` creates the `nextCh` token channel with
capacity one and seeds it with exactly one token, and along every schedule
of every number of concurrent `GetStats` calls, the number of goroutines
holding the token plus the number of tokens in the channel is exactly one:
at most one permit holder exists at any instant, and once every call has
completed — through any path, error paths included — the token is back in
the channel, i.e. every acquired token was returned exactly once. -/
theorem gate_permit_discipline (env : FetchEnv) (tags : List String)
    (now0 : Int) (cache0 : StatsCache) (tr : List GoEv) (s : GetStatsSys)
    (hrun : runTrace env tr (initSys tags now0 cache0) = some s) :
    (initSys tags now0 cache0).token = true ∧
    holders s.threads + tokenBit s.token = 1 ∧
    holders s.threads ≤ 1 ∧
    ((∀ (i : Nat) (t : GoThread), s.threads[i]? = some t → t.isDone = true) →
      s.token = true ∧ holders s.threads = 0) := by
  have hinit : tokenBalanced (initSys tags now0 cache0) :=
    tokenBalanced_init tags now0 cache0
  have hb := runTrace_inv env (fun _ => True) tokenBalanced
    (fun ev s1 s2 _ h1 hs => step_tokenBalanced env ev s1 s2 hs h1)
    tr _ s (fun _ _ => trivial) hinit hrun
  unfold tokenBalanced at hb
  refine ⟨rfl, hb, by omega, ?_⟩
  intro hdone
  have h0 : holders s.threads = 0 := by
    unfold holders
    refine List.countP_eq_zero.mpr (fun t ht => ?_)
    obtain ⟨j, hj⟩ := List.mem_iff_getElem?.mp ht
    have := holdsToken_eq_false_of_isDone t (hdone j t hj)
    simp [this]
  rw [h0] at hb
  cases htok : s.token
  · rw [htok] at hb
    simp [tokenBit] at hb
  · exact ⟨rfl, h0⟩

/-- Witness for C2: after a schedule in which one caller misses the cache
and acquires the permit, the balance still holds. -/
theorem gate_permit_discipline_witness :
    (runTrace wEnv c2wTr wInit1).map
      (fun s => holders s.threads + tokenBit s.token) = some 1 := by
  rcases hrun : runTrace wEnv c2wTr wInit1 with _ | s
  · have hs : (runTrace wEnv c2wTr wInit1).isSome = true := by decide
    rw [hrun] at hs
    simp at hs
  · have h := gate_permit_discipline wEnv ["Name#1234"] 0 [] c2wTr s hrun
    simp [h.2.1]

/-- C8: the cache is written only by the `addCache` action; that action
writes, in one step, a complete entry pairing the fetched value with the
write instant; and a goroutine only ever stages for writing the exact value
the transport successfully returned for its key — so every error path after
permit acquisition (request construction failure, transport error, bad
status, structural decode error) leaves the cache untouched, and no
half-written entry can exist. -/
theorem cache_write_discipline :
    (∀ (env : FetchEnv) (ev : GoEv) (s s2 : GetStatsSys),
      step env ev s = some s2 → writesCache ev = false → s2.cache = s.cache) ∧
    (∀ (env : FetchEnv) (i : Nat) (s s2 : GetStatsSys),
      step env (.thread i .addCache) s = some s2 →
      ∃ (t : GoThread) (w : UserStats), s.threads[i]? = some t ∧
        t.phase = .storing w ∧
        s2.cache = cacheAdd s.cache t.key ⟨w, s.now⟩) ∧
    (∀ (env : FetchEnv) (tags : List String) (now0 : Int)
      (cache0 : StatsCache) (tr : List GoEv) (s : GetStatsSys),
      runTrace env tr (initSys tags now0 cache0) = some s →
      storingSound env s) := by
  refine ⟨?_, ?_, ?_⟩
  · intro env ev s s2 h hw
    cases ev with
    | tick d =>
      simp only [step, Option.some.injEq] at h
      subst h
      rfl
    | cancel i =>
      simp only [step] at h
      split at h
      · exact Option.noConfusion h
      · simp only [Option.some.injEq] at h
        subst h
        rfl
    | thread i a =>
      obtain ⟨t, heq, hc⟩ := step_thread_inv env i a s s2 h
      rcases hc with ⟨-, -, v, -, rfl⟩ | ⟨-, -, -, rfl⟩ | ⟨-, -, -, rfl⟩ |
          ⟨-, -, -, rfl⟩ | ⟨-, -, v, -, rfl⟩ | ⟨-, -, -, rfl⟩ | ⟨-, -, -, rfl⟩ |
          ⟨-, -, -, rfl⟩ | ⟨-, -, v, -, rfl⟩ | ⟨-, -, e, -, rfl⟩ |
          ⟨ha, v, -, rfl⟩ | ⟨-, v, -, rfl⟩ | ⟨-, e, -, rfl⟩ <;>
        first
        | rfl
        | (subst ha; simp [writesCache] at hw)
  · intro env i s s2 h
    obtain ⟨t, heq, hc⟩ := step_thread_inv env i .addCache s s2 h
    rcases hc with ⟨ha, -⟩ | ⟨ha, -⟩ | ⟨ha, -⟩ | ⟨ha, -⟩ | ⟨ha, -⟩ | ⟨ha, -⟩ |
        ⟨ha, -⟩ | ⟨ha, -⟩ | ⟨ha, -⟩ | ⟨ha, -⟩ | ⟨-, v, htp, rfl⟩ |
        ⟨ha, -⟩ | ⟨ha, -⟩ <;>
      try exact absurd ha (by simp)
    exact ⟨t, v, heq, htp, rfl⟩
  · intro env tags now0 cache0 tr s hrun
    have hinit : storingSound env (initSys tags now0 cache0) := by
      intro i t h w hw
      unfold initSys at h
      rw [List.getElem?_map] at h
      cases hti : tags[i]? <;> rw [hti] at h
      · exact Option.noConfusion h
      · injection h with h
        rw [← h] at hw
        exact absurd hw (by simp)
    refine runTrace_inv env (fun _ => True) (storingSound env)
      (fun ev s1 s2 _ h1 hs => ?_) tr _ s (fun _ _ => trivial) hinit hrun
    cases ev with
    | tick d =>
      simp only [step, Option.some.injEq] at hs
      subst hs
      exact h1
    | cancel i =>
      simp only [step] at hs
      split at hs
      · exact Option.noConfusion hs
      · next t heq =>
        simp only [Option.some.injEq] at hs
        subst hs
        exact fun j u hj =>
          @forall_getElem?_set
            (fun u => ∀ w, u.phase = .storing w → env.transport u.key = .ok w)
            s1.threads i { t with cancelled := true }
            (fun j2 t3 h3 => h1 j2 t3 h3)
            (fun w2 hw2 => h1 i t heq w2 hw2) j u hj
    | thread i a =>
      obtain ⟨t, heq, hc⟩ := step_thread_inv env i a s1 s2 hs
      have hP : ∀ t2 : GoThread,
          (∀ w, t2.phase = .storing w → env.transport t2.key = .ok w) →
          storingSound env (setThread s1 i t2) := fun t2 hnew j u hj =>
        @forall_getElem?_set
          (fun u => ∀ w, u.phase = .storing w → env.transport u.key = .ok w)
          s1.threads i t2 (fun j2 t3 h3 => h1 j2 t3 h3) hnew j u hj
      rcases hc with ⟨-, -, v, -, rfl⟩ | ⟨-, -, -, rfl⟩ | ⟨-, -, -, rfl⟩ |
          ⟨-, -, -, rfl⟩ | ⟨-, -, v, -, rfl⟩ | ⟨-, -, -, rfl⟩ | ⟨-, -, -, rfl⟩ |
          ⟨-, -, -, rfl⟩ | ⟨-, -, v, htr, rfl⟩ | ⟨-, -, e, -, rfl⟩ |
          ⟨-, v, -, rfl⟩ | ⟨-, v, -, rfl⟩ | ⟨-, e, -, rfl⟩ <;>
        exact hP _ (fun w2 hw2 => by
          injection hw2 <;> rename_i h2 <;> exact h2 ▸ htr)

/-- Witness for C8: a time step leaves the cache unchanged, and a concrete
`addCache` step writes the complete fetched entry. -/
theorem cache_write_discipline_witness :
    ((step wEnv (.tick 5) wInit1).map GetStatsSys.cache = some wInit1.cache) ∧
    storingSound wEnv wInit1 := by
  constructor
  · rcases hstep : step wEnv (.tick 5) wInit1 with _ | s2
    · have hs : (step wEnv (.tick 5) wInit1).isSome = true := by decide
      rw [hstep] at hs
      simp at hs
    · have h := cache_write_discipline.1 wEnv (.tick 5) wInit1 s2 hstep rfl
      simp [h]
  · exact cache_write_discipline.2.2 wEnv ["Name#1234"] 0 [] [] wInit1 rfl

/-- Every step preserves the call-count discipline. -/
theorem step_callsOk (env : FetchEnv) (ev : GoEv) (s1 s2 : GetStatsSys)
    (h : step env ev s1 = some s2) (h1 : callsOkC3 s1) : callsOkC3 s2 := by
  cases ev with
  | tick d =>
    simp only [step, Option.some.injEq] at h
    subst h
    exact h1
  | cancel i =>
    simp only [step] at h
    split at h
    · exact Option.noConfusion h
    · next t heq =>
      simp only [Option.some.injEq] at h
      subst h
      exact fun j u hj =>
        @forall_getElem?_set
          (fun u => ((u.phase = .start ∨ u.phase = .gateWait) → u.calls = 0) ∧
            (u.phase = .done (.error .cancelled) → u.calls = 0) ∧
            (∀ e, u.phase = .erroring e → e ≠ .cancelled))
          s1.threads i { t with cancelled := true }
          (fun j2 t3 h3 => h1 j2 t3 h3) (h1 i t heq) j u hj
  | thread i a =>
    obtain ⟨t, heq, hc⟩ := step_thread_inv env i a s1 s2 h
    have hP : ∀ t2 : GoThread,
        (((t2.phase = .start ∨ t2.phase = .gateWait) → t2.calls = 0) ∧
          (t2.phase = .done (.error .cancelled) → t2.calls = 0) ∧
          (∀ e, t2.phase = .erroring e → e ≠ .cancelled)) →
        callsOkC3 (setThread s1 i t2) := fun t2 hnew j u hj =>
      @forall_getElem?_set
        (fun u => ((u.phase = .start ∨ u.phase = .gateWait) → u.calls = 0) ∧
          (u.phase = .done (.error .cancelled) → u.calls = 0) ∧
          (∀ e, u.phase = .erroring e → e ≠ .cancelled))
        s1.threads i t2 (fun j2 t3 h3 => h1 j2 t3 h3) hnew j u hj
    rcases hc with ⟨-, htp, v, -, rfl⟩ | ⟨-, htp, -, rfl⟩ | ⟨-, htp, -, rfl⟩ |
        ⟨-, htp, -, rfl⟩ | ⟨-, htp, v, -, rfl⟩ | ⟨-, htp, -, rfl⟩ |
        ⟨-, htp, -, rfl⟩ | ⟨-, htp, -, rfl⟩ | ⟨-, htp, v, -, rfl⟩ |
        ⟨-, htp, e, -, rfl⟩ | ⟨-, v, htp, rfl⟩ | ⟨-, v, htp, rfl⟩ |
        ⟨-, e, htp, rfl⟩
    · exact hP _ ⟨fun hx => by rcases hx with hx | hx <;> simp at hx,
        fun hx => by simp at hx, fun e2 hx => by simp at hx⟩
    · exact hP _ ⟨fun _ => (h1 i t heq).1 (Or.inl htp),
        fun hx => by simp at hx, fun e2 hx => by simp at hx⟩
    · exact hP _ ⟨fun hx => by rcases hx with hx | hx <;> simp at hx,
        fun _ => (h1 i t heq).1 (Or.inr htp), fun e2 hx => by simp at hx⟩
    · exact hP _ ⟨fun hx => by rcases hx with hx | hx <;> simp at hx,
        fun hx => by simp at hx, fun e2 hx => by simp at hx⟩
    · exact hP _ ⟨fun hx => by rcases hx with hx | hx <;> simp at hx,
        fun hx => by simp at hx, fun e2 hx => by simp at hx⟩
    · exact hP _ ⟨fun hx => by rcases hx with hx | hx <;> simp at hx,
        fun hx => by simp at hx, fun e2 hx => by simp at hx⟩
    · exact hP _ ⟨fun hx => by rcases hx with hx | hx <;> simp at hx,
        fun hx => by simp at hx, fun e2 hx => by
          injection hx with hx
          subst hx
          simp⟩
    · exact hP _ ⟨fun hx => by rcases hx with hx | hx <;> simp at hx,
        fun hx => by simp at hx, fun e2 hx => by simp at hx⟩
    · exact hP _ ⟨fun hx => by rcases hx with hx | hx <;> simp at hx,
        fun hx => by simp at hx, fun e2 hx => by simp at hx⟩
    · exact hP _ ⟨fun hx => by rcases hx with hx | hx <;> simp at hx,
        fun hx => by simp at hx, fun e2 hx => by
          injection hx with hx
          subst hx
          simp⟩
    · exact hP _ ⟨fun hx => by rcases hx with hx | hx <;> simp at hx,
        fun hx => by simp at hx, fun e2 hx => by simp at hx⟩
    · exact hP _ ⟨fun hx => by rcases hx with hx | hx <;> simp at hx,
        fun hx => by simp at hx, fun e2 hx => by simp at hx⟩
    · refine hP _ ⟨fun hx => by rcases hx with hx | hx <;> simp at hx,
        fun hx => ?_, fun e2 hx => by simp at hx⟩
      injection hx with hx
      injection hx with hx
      exact absurd hx ((h1 i t heq).2.2 e htp)

/-- C3 (amended): every `GetStats` call that completes through the
cancellation branch of the gate `select` — returning the context's
cancellation error — issued no HTTP request: the transport was invoked zero
times on behalf of that caller; similarly, any caller still before or at
the gate has issued none. (The original universal claim — a context
cancelled while the caller waits at the gate always yields the cancellation
result with no request — does not hold of the code: when cancellation and
token availability coincide, Go's `select` may take the token and the call
proceeds to fetch; see the counterexample.) -/
theorem cancelled_caller_zero_calls (env : FetchEnv) (tags : List String)
    (now0 : Int) (cache0 : StatsCache) (tr : List GoEv) (s : GetStatsSys)
    (hrun : runTrace env tr (initSys tags now0 cache0) = some s) :
    ∀ (i : Nat) (t : GoThread), s.threads[i]? = some t →
      (t.phase = .done (.error .cancelled) → t.calls = 0) ∧
      ((t.phase = .start ∨ t.phase = .gateWait) → t.calls = 0) := by
  have hinit : callsOkC3 (initSys tags now0 cache0) := by
    intro i t h
    unfold initSys at h
    rw [List.getElem?_map] at h
    cases hti : tags[i]? <;> rw [hti] at h
    · exact Option.noConfusion h
    · injection h with h
      refine ⟨fun _ => ?_, fun hx => ?_, fun e hx => ?_⟩
      · rw [← h]
      · rw [← h] at hx
        exact absurd hx (by simp)
      · rw [← h] at hx
        exact absurd hx (by simp)
  have hall := runTrace_inv env (fun _ => True) callsOkC3
    (fun ev s1 s2 _ h1 hs => step_callsOk env ev s1 s2 hs h1)
    tr _ s (fun _ _ => trivial) hinit hrun
  intro i t h
  exact ⟨(hall i t h).2.1, (hall i t h).1⟩

/-- Witness for C3 (amended): a caller that gives up at the gate ends with
the cancellation error and zero transport calls. -/
theorem cancelled_caller_zero_calls_witness :
    ((runTrace wEnv c3wTr wInit1).bind (fun s => s.threads[0]?)).map
      (fun t => (t.phase, t.calls)) = some (.done (.error .cancelled), 0) := by
  rcases hrun : runTrace wEnv c3wTr wInit1 with _ | s
  · have hs : (runTrace wEnv c3wTr wInit1).isSome = true := by decide
    rw [hrun] at hs
    simp at hs
  · rcases hget : s.threads[0]? with _ | t
    · have hs : ((runTrace wEnv c3wTr wInit1).bind
          (fun s2 => s2.threads[0]?)).isSome = true := by decide
      rw [hrun] at hs
      simp [hget] at hs
    · have hphase : t.phase = .done (.error .cancelled) := by
        have hs : ((runTrace wEnv c3wTr wInit1).bind
            (fun s2 => s2.threads[0]?)).map (fun u => u.phase) =
            some (.done (.error .cancelled)) := by decide
        rw [hrun] at hs
        simp [hget] at hs
        exact hs
      have h := cancelled_caller_zero_calls wEnv ["Name#1234"] 0 [] c3wTr s
        hrun 0 t hget
      simp [hget, hphase, h.1 hphase]

/-- Counterexample to C3 as stated: a schedule in which the caller is at
the gate `select` with its context already fired (and the token
simultaneously available — both `select` branches ready), yet the call
takes the token, issues the HTTP request (one transport call) and returns
the fetched value rather than the cancellation error. -/
theorem cancelled_at_gate_counterexample :
    (runTrace wEnv c3cexPre wInit1).map
      (fun s => (s.threads[0]?.map (fun t => (t.phase, t.cancelled)), s.token)) =
      some (some (.gateWait, true), true) ∧
    ((runTrace wEnv c3cexTr wInit1).bind (fun s => s.threads[0]?)).map
      (fun t => (t.phase, t.calls)) = some (.done (.ok sampleStats), 1) :=
  ⟨by decide, by decide⟩

/-- Every non-cancellation step preserves the single-key scenario
invariant. -/
theorem stepC1_preserve (env : FetchEnv) (k : String) (v : UserStats)
    (cache0 : StatsCache) (now0 : Int) (tags : List String)
    (hT : env.transport k = .ok v) (hBF : env.buildFails k = false)
    (hstale : ∀ e, cacheLookup cache0 k = some e →
      e.addedAt + cacheDurationStats < now0)
    (ev : GoEv) (hev : isCancelEv ev = false) (s s2 : GetStatsSys)
    (h : step env ev s = some s2) (hi : invC1 k v cache0 now0 tags s) :
    invC1 k v cache0 now0 tags s2 := by
  obtain ⟨hbal, hnow, hlen, hthreads, hcache, hstage⟩ := hi
  have hbal2 := step_tokenBalanced env ev s s2 h hbal
  have hnow2 := le_trans hnow (step_now_le env ev s s2 h)
  have hlen2 : s2.threads.length = tags.length :=
    (step_threads_length env ev s s2 h).trans hlen
  cases ev with
  | cancel i => simp [isCancelEv] at hev
  | tick d =>
    simp only [step, Option.some.injEq] at h
    subst h
    refine ⟨hbal2, hnow2, hlen2, hthreads, ?_, ?_⟩
    · rcases hcache with hc | ⟨ts, h1, h2, h3⟩
      · exact Or.inl hc
      · refine Or.inr ⟨ts, h1, h2, ?_⟩
        show ts ≤ s.now + (d : Int)
        have := Int.natCast_nonneg d
        omega
    · intro hg2
      have hg2a : s.now + (d : Int) ≤ now0 + cacheDurationStats := hg2
      have hg : s.now ≤ now0 + cacheDurationStats := by
        have := Int.natCast_nonneg d
        omega
      rcases hstage hg with ⟨h1, h2, h3⟩ | ⟨h1, h2, h3⟩ | ⟨h1, h2, h3⟩
      · exact Or.inl ⟨h1, h2, h3⟩
      · exact Or.inr (Or.inl ⟨h1, h2, h3⟩)
      · refine Or.inr (Or.inr ⟨h1, ?_, h3⟩)
        obtain ⟨ts, hts1, hts2, hts3⟩ := h2
        refine ⟨ts, hts1, hts2, ?_⟩
        show ts ≤ s.now + (d : Int)
        have := Int.natCast_nonneg d
        omega
  | thread i a =>
    obtain ⟨t, heq, hd⟩ := step_thread_inv env i a s s2 h
    obtain ⟨htk, htc, htdone, hterr, htstor, htrel⟩ := hthreads i t heq
    have hTO : ∀ t2 : GoThread, threadOkC1 k v t2 →
        ∀ (j : Nat) (u : GoThread), (s.threads.set i t2)[j]? = some u →
        threadOkC1 k v u := fun t2 hnew =>
      @forall_getElem?_set (threadOkC1 k v) s.threads i t2 hthreads hnew
    have hmiss : cacheLookup s.cache k = cacheLookup cache0 k →
        getUserStatsFromCache s.cache k s.now = none := by
      intro hceq
      rcases hl : cacheLookup cache0 k with _ | e0
      · exact getCache_none _ _ _ (hceq.trans hl)
      · have := hstale e0 hl
        exact getCache_stale _ _ _ e0 (hceq.trans hl) (by omega)
    have hhitv : ∀ w, getUserStatsFromCache s.cache k s.now = some w →
        w = v := by
      intro w hw
      rcases hcache with hceq | ⟨ts, hts, h1, h2⟩
      · rcases hl : cacheLookup cache0 k with _ | e0
        · rw [getCache_none _ _ _ (hceq.trans hl)] at hw
          exact Option.noConfusion hw
        · have := hstale e0 hl
          rw [getCache_stale _ _ _ e0 (hceq.trans hl) (by omega)] at hw
          exact Option.noConfusion hw
      · by_cases hfr : s.now - (⟨v, ts⟩ : UserStatsCacheEntry).addedAt ≤
            cacheDurationStats
        · rw [getCache_fresh _ _ _ _ hts hfr] at hw
          injection hw with hw
          exact hw.symm
        · rw [getCache_stale _ _ _ _ hts hfr] at hw
          exact Option.noConfusion hw
    have hhit : freshAtC1 k v now0 s → s.now ≤ now0 + cacheDurationStats →
        getUserStatsFromCache s.cache k s.now = some v := by
      rintro ⟨ts, hts, h1, h2⟩ hg
      exact getCache_fresh _ _ _ _ hts
        (show s.now - ts ≤ cacheDurationStats by omega)
    have htwo : ∀ (j : Nat) (u : GoThread), s.threads[j]? = some u →
        holdsToken u.phase = true → holdsToken t.phase = true → i ≠ j →
        False := by
      intro j u hju hpu hpt hij
      have h2 := countP_two_of_holders (fun u => holdsToken u.phase)
        s.threads i j t u hij heq hju (by simpa using hpt) (by simpa using hpu)
      unfold tokenBalanced holders at hbal
      omega
    have hbusy : ∀ (j : Nat) (u : GoThread), s.threads[j]? = some u →
        holdsToken u.phase = true → s.token = false := by
      intro j u hju hpu
      have h1 := countP_one_of_holder (fun u => holdsToken u.phase)
        s.threads j u hju (by simpa using hpu)
      unfold tokenBalanced holders at hbal
      cases htok : s.token
      · rfl
      · exfalso
        rw [htok] at hbal
        have hb1 : tokenBit true = 1 := rfl
        rw [hb1] at hbal
        omega
    have hneq : ∀ (j : Nat) (u : GoThread), s.threads[j]? = some u →
        u.phase ≠ t.phase → i ≠ j := by
      intro j u hju hup hij
      subst hij
      rw [heq] at hju
      injection hju with hju
      exact hup (congrArg GoThread.phase hju.symm)
    rcases hd with ⟨-, htp, v1, hcget, rfl⟩ | ⟨-, htp, hcget, rfl⟩ |
        ⟨-, htp, hcanc, rfl⟩ | ⟨-, htp, htok, rfl⟩ |
        ⟨-, htp, v1, hcget, rfl⟩ | ⟨-, htp, hcget, rfl⟩ |
        ⟨-, htp, hbf, rfl⟩ | ⟨-, htp, hbf, rfl⟩ |
        ⟨-, htp, v1, htr, rfl⟩ | ⟨-, htp, e1, htr, rfl⟩ |
        ⟨-, v1, htp, rfl⟩ | ⟨-, v1, htp, rfl⟩ | ⟨-, e1, htp, rfl⟩
    -- start, cache hit
    · rw [htk] at hcget
      have hv := hhitv v1 hcget
      subst v1
      refine ⟨hbal2, hnow2, hlen2,
        hTO _ ⟨htk, htc, fun r hr => by injection hr with hr; exact hr.symm,
          fun e => by simp, fun w hw => by simp at hw,
          fun w hw => by simp at hw⟩, hcache, ?_⟩
      intro hg
      rcases hstage hg with ⟨-, hceq, -⟩ | ⟨-, hceq, -⟩ | ⟨hc1, hfresh, htrip⟩
      · rw [hmiss hceq] at hcget
        exact Option.noConfusion hcget
      · rw [hmiss hceq] at hcget
        exact Option.noConfusion hcget
      · refine Or.inr (Or.inr ⟨hc1, hfresh, ?_⟩)
        exact @forall_getElem?_set
          (fun u => (∀ w, u.phase ≠ .storing w) ∧ u.phase ≠ .building ∧
            u.phase ≠ .fetching) s.threads i _ htrip
          ⟨fun w => by simp, by simp, by simp⟩
    -- start, cache miss
    · refine ⟨hbal2, hnow2, hlen2,
        hTO _ ⟨htk, htc, fun r hr => by simp at hr, fun e => by simp,
          fun w hw => by simp at hw, fun w hw => by simp at hw⟩, hcache, ?_⟩
      intro hg
      rcases hstage hg with ⟨hc0, hceq, htrip⟩ | ⟨hc1, hceq, j, u, hju, hust⟩ |
          ⟨hc1, hfresh, htrip⟩
      · refine Or.inl ⟨hc0, hceq, ?_⟩
        exact @forall_getElem?_set
          (fun u => (∀ r, u.phase ≠ .done r) ∧ (∀ w, u.phase ≠ .storing w) ∧
            (∀ w, u.phase ≠ .releasingOk w)) s.threads i _ htrip
          ⟨fun r => by simp, fun w => by simp, fun w => by simp⟩
      · have hij : i ≠ j := hneq j u hju (by rw [hust, htp]; simp)
        refine Or.inr (Or.inl ⟨hc1, hceq, j, u, ?_, hust⟩)
        simp only [setThread]
        rw [List.getElem?_set_ne hij]
        exact hju
      · have hx := hhit hfresh hg
        rw [htk] at hcget
        rw [hcget] at hx
        exact Option.noConfusion hx
    -- giveUp: impossible, the context never fires
    · rw [htc] at hcanc
      exact Bool.noConfusion hcanc
    -- acquire
    · refine ⟨hbal2, hnow2, hlen2,
        hTO _ ⟨htk, htc, fun r hr => by simp at hr, fun e => by simp,
          fun w hw => by simp at hw, fun w hw => by simp at hw⟩, hcache, ?_⟩
      intro hg
      rcases hstage hg with ⟨hc0, hceq, htrip⟩ | ⟨hc1, hceq, j, u, hju, hust⟩ |
          ⟨hc1, hfresh, htrip⟩
      · refine Or.inl ⟨hc0, hceq, ?_⟩
        exact @forall_getElem?_set
          (fun u => (∀ r, u.phase ≠ .done r) ∧ (∀ w, u.phase ≠ .storing w) ∧
            (∀ w, u.phase ≠ .releasingOk w)) s.threads i _ htrip
          ⟨fun r => by simp, fun w => by simp, fun w => by simp⟩
      · have := hbusy j u hju (by rw [hust]; rfl)
        rw [htok] at this
        exact Bool.noConfusion this
      · refine Or.inr (Or.inr ⟨hc1, hfresh, ?_⟩)
        exact @forall_getElem?_set
          (fun u => (∀ w, u.phase ≠ .storing w) ∧ u.phase ≠ .building ∧
            u.phase ≠ .fetching) s.threads i _ htrip
          ⟨fun w => by simp, by simp, by simp⟩
    -- recheck, cache hit
    · rw [htk] at hcget
      have hv := hhitv v1 hcget
      subst v1
      refine ⟨hbal2, hnow2, hlen2,
        hTO _ ⟨htk, htc, fun r hr => by simp at hr, fun e => by simp,
          fun w hw => by simp at hw,
          fun w hw => by injection hw with hw; exact hw.symm⟩, hcache, ?_⟩
      intro hg
      rcases hstage hg with ⟨-, hceq, -⟩ | ⟨-, hceq, -⟩ | ⟨hc1, hfresh, htrip⟩
      · rw [hmiss hceq] at hcget
        exact Option.noConfusion hcget
      · rw [hmiss hceq] at hcget
        exact Option.noConfusion hcget
      · refine Or.inr (Or.inr ⟨hc1, hfresh, ?_⟩)
        exact @forall_getElem?_set
          (fun u => (∀ w, u.phase ≠ .storing w) ∧ u.phase ≠ .building ∧
            u.phase ≠ .fetching) s.threads i _ htrip
          ⟨fun w => by simp, by simp, by simp⟩
    -- recheck, cache miss
    · refine ⟨hbal2, hnow2, hlen2,
        hTO _ ⟨htk, htc, fun r hr => by simp at hr, fun e => by simp,
          fun w hw => by simp at hw, fun w hw => by simp at hw⟩, hcache, ?_⟩
      intro hg
      rcases hstage hg with ⟨hc0, hceq, htrip⟩ | ⟨hc1, hceq, j, u, hju, hust⟩ |
          ⟨hc1, hfresh, htrip⟩
      · refine Or.inl ⟨hc0, hceq, ?_⟩
        exact @forall_getElem?_set
          (fun u => (∀ r, u.phase ≠ .done r) ∧ (∀ w, u.phase ≠ .storing w) ∧
            (∀ w, u.phase ≠ .releasingOk w)) s.threads i _ htrip
          ⟨fun r => by simp, fun w => by simp, fun w => by simp⟩
      · have hij : i ≠ j := hneq j u hju (by rw [hust, htp]; simp)
        exact (htwo j u hju (by rw [hust]; rfl) (by rw [htp]; rfl) hij).elim
      · have hx := hhit hfresh hg
        rw [htk] at hcget
        rw [hcget] at hx
        exact Option.noConfusion hx
    -- build failure: impossible, request construction never fails for k
    · rw [htk, hBF] at hbf
      exact Bool.noConfusion hbf
    -- build success
    · refine ⟨hbal2, hnow2, hlen2,
        hTO _ ⟨htk, htc, fun r hr => by simp at hr, fun e => by simp,
          fun w hw => by simp at hw, fun w hw => by simp at hw⟩, hcache, ?_⟩
      intro hg
      rcases hstage hg with ⟨hc0, hceq, htrip⟩ | ⟨hc1, hceq, j, u, hju, hust⟩ |
          ⟨hc1, hfresh, htrip⟩
      · refine Or.inl ⟨hc0, hceq, ?_⟩
        exact @forall_getElem?_set
          (fun u => (∀ r, u.phase ≠ .done r) ∧ (∀ w, u.phase ≠ .storing w) ∧
            (∀ w, u.phase ≠ .releasingOk w)) s.threads i _ htrip
          ⟨fun r => by simp, fun w => by simp, fun w => by simp⟩
      · have hij : i ≠ j := hneq j u hju (by rw [hust, htp]; simp)
        exact (htwo j u hju (by rw [hust]; rfl) (by rw [htp]; rfl) hij).elim
      · exact absurd htp (htrip i t heq).2.1
    -- fetch, transport success
    · rw [htk, hT] at htr
      injection htr with htr
      subst v1
      refine ⟨hbal2, hnow2, hlen2,
        hTO _ ⟨htk, htc, fun r hr => by simp at hr, fun e => by simp,
          fun w hw => by injection hw with hw; exact hw.symm,
          fun w hw => by simp at hw⟩, hcache, ?_⟩
      intro hg
      rcases hstage hg with ⟨hc0, hceq, htrip⟩ | ⟨hc1, hceq, j, u, hju, hust⟩ |
          ⟨hc1, hfresh, htrip⟩
      · obtain ⟨hlt, -⟩ := List.getElem?_eq_some.mp heq
        have hset : (s.threads.set i
            { t with phase := .storing v, calls := t.calls + 1 })[i]? =
            some { t with phase := .storing v, calls := t.calls + 1 } := by
          rw [List.getElem?_set]
          simp [hlt]
        exact Or.inr (Or.inl ⟨(show s.calls + 1 = 1 by omega), hceq, i, _,
          hset, rfl⟩)
      · have hij : i ≠ j := hneq j u hju (by rw [hust, htp]; simp)
        exact (htwo j u hju (by rw [hust]; rfl) (by rw [htp]; rfl) hij).elim
      · exact absurd htp (htrip i t heq).2.2
    -- fetch, transport error: impossible, the stub always succeeds for k
    · rw [htk, hT] at htr
      exact DoResult.noConfusion htr
    -- addCache
    · have hv := htstor v1 htp
      subst v1
      have hlk : cacheLookup (cacheAdd s.cache t.key ⟨v, s.now⟩) k =
          some ⟨v, s.now⟩ := by
        unfold cacheAdd cacheLookup
        rw [if_pos htk]
      refine ⟨hbal2, hnow2, hlen2,
        hTO _ ⟨htk, htc, fun r hr => by simp at hr, fun e => by simp,
          fun w hw => by simp at hw,
          fun w hw => by injection hw with hw; exact hw.symm⟩,
        Or.inr ⟨s.now, hlk, hnow, le_refl _⟩, ?_⟩
      intro hg
      rcases hstage hg with ⟨-, -, htrip⟩ | ⟨hc1, hceq, j, u, hju, hust⟩ |
          ⟨-, -, htrip⟩
      · exact absurd htp ((htrip i t heq).2.1 v)
      · refine Or.inr (Or.inr ⟨hc1, ⟨s.now, hlk, hnow, le_refl _⟩, ?_⟩)
        intro j2 u2 hj2
        simp only [setThread] at hj2
        by_cases hij2 : i = j2
        · subst hij2
          obtain ⟨hlt, -⟩ := List.getElem?_eq_some.mp heq
          rw [List.getElem?_set] at hj2
          simp [hlt] at hj2
          rw [← hj2]
          exact ⟨fun w => by simp, by simp, by simp⟩
        · rw [List.getElem?_set_ne hij2] at hj2
          have hother : ¬(holdsToken u2.phase = true) := fun hpu =>
            htwo j2 u2 hj2 hpu (by rw [htp]; rfl) hij2
          refine ⟨fun w hw => hother (by rw [hw]; rfl),
            fun hw => hother (by rw [hw]; rfl),
            fun hw => hother (by rw [hw]; rfl)⟩
      · exact absurd htp ((htrip i t heq).1 v)
    -- finish after success
    · have hv := htrel v1 htp
      subst v1
      refine ⟨hbal2, hnow2, hlen2,
        hTO _ ⟨htk, htc, fun r hr => by injection hr with hr; exact hr.symm,
          fun e => by simp, fun w hw => by simp at hw,
          fun w hw => by simp at hw⟩, hcache, ?_⟩
      intro hg
      rcases hstage hg with ⟨-, -, htrip⟩ | ⟨hc1, hceq, j, u, hju, hust⟩ |
          ⟨hc1, hfresh, htrip⟩
      · exact absurd htp ((htrip i t heq).2.2 v)
      · have hij : i ≠ j := hneq j u hju (by rw [hust, htp]; simp)
        exact (htwo j u hju (by rw [hust]; rfl) (by rw [htp]; rfl) hij).elim
      · refine Or.inr (Or.inr ⟨hc1, hfresh, ?_⟩)
        exact @forall_getElem?_set
          (fun u => (∀ w, u.phase ≠ .storing w) ∧ u.phase ≠ .building ∧
            u.phase ≠ .fetching) s.threads i _ htrip
          ⟨fun w => by simp, by simp, by simp⟩
    -- finish after error: impossible, no goroutine ever errs in this scenario
    · exact absurd htp (hterr e1)

/-- The single-key invariant holds at construction. -/
theorem invC1_init (k : String) (v : UserStats) (cache0 : StatsCache)
    (now0 : Int) (tags : List String)
    (hK : ∀ tag ∈ tags, normalizeTag tag = k) :
    invC1 k v cache0 now0 tags (initSys tags now0 cache0) := by
  refine ⟨tokenBalanced_init tags now0 cache0, le_refl _, by simp [initSys],
    ?_, Or.inl rfl, fun _ => Or.inl ⟨rfl, rfl, ?_⟩⟩
  · intro i t h
    unfold initSys at h
    rw [List.getElem?_map] at h
    rcases hti : tags[i]? with _ | tag <;> rw [hti] at h
    · exact Option.noConfusion h
    · injection h with h
      subst h
      exact ⟨hK tag (List.getElem?_mem hti), rfl, fun r hr => by simp at hr,
        fun e => by simp, fun w hw => by simp at hw, fun w hw => by simp at hw⟩
  · intro i t h
    unfold initSys at h
    rw [List.getElem?_map] at h
    rcases hti : tags[i]? with _ | tag <;> rw [hti] at h
    · exact Option.noConfusion h
    · injection h with h
      subst h
      exact ⟨fun r => by simp, fun w => by simp, fun w => by simp⟩

/-- C1: with a stub transport that succeeds for the common key, no request
construction failure, a cache initially empty or stale at that key, and no
cancellation, every schedule of any number of concurrent same-key `GetStats`
calls makes at most one transport call while within the cache TTL window;
and in any state where all callers have completed, exactly one transport
call was made and every caller received the same fetched value — the
post-acquisition cache re-check served every other caller from the cache. -/
theorem single_upstream_call_per_key (env : FetchEnv) (k : String)
    (v : UserStats) (cache0 : StatsCache) (now0 : Int) (tags : List String)
    (tr : List GoEv) (s : GetStatsSys)
    (hT : env.transport k = .ok v) (hBF : env.buildFails k = false)
    (hK : ∀ tag ∈ tags, normalizeTag tag = k)
    (hstale : ∀ e, cacheLookup cache0 k = some e →
      e.addedAt + cacheDurationStats < now0)
    (hNC : ∀ ev ∈ tr, isCancelEv ev = false)
    (hrun : runTrace env tr (initSys tags now0 cache0) = some s)
    (hTTL : s.now ≤ now0 + cacheDurationStats) :
    s.calls ≤ 1 ∧
    (tags ≠ [] →
      (∀ (i : Nat) (t : GoThread), s.threads[i]? = some t →
        ∃ r, t.phase = .done r) →
      s.calls = 1 ∧
      ∀ (i : Nat) (t : GoThread), s.threads[i]? = some t →
        t.phase = .done (.ok v)) := by
  have hinv := runTrace_inv env (fun ev => isCancelEv ev = false)
    (invC1 k v cache0 now0 tags)
    (fun ev s1 s2 hA h1 hs =>
      stepC1_preserve env k v cache0 now0 tags hT hBF hstale ev hA s1 s2 hs h1)
    tr _ s hNC (invC1_init k v cache0 now0 tags hK) hrun
  obtain ⟨hbal, hnow, hlen, hthreads, hcache, hstage⟩ := hinv
  constructor
  · rcases hstage hTTL with ⟨hc0, -, -⟩ | ⟨hc1, -, -⟩ | ⟨hc1, -, -⟩ <;> omega
  · intro hne hdone
    rcases hstage hTTL with ⟨hc0, hceq, htrip⟩ | ⟨hc1, hceq, j, u, hju, hust⟩ |
        ⟨hc1, hfresh, htrip⟩
    · exfalso
      have hpos : 0 < tags.length := List.length_pos.mpr hne
      have hlt : 0 < s.threads.length := by omega
      have h0 : s.threads[0]? = some s.threads[0] := List.getElem?_eq_getElem hlt
      obtain ⟨r, hr⟩ := hdone 0 _ h0
      exact (htrip 0 _ h0).1 r hr
    · exfalso
      obtain ⟨r, hr⟩ := hdone j u hju
      rw [hust] at hr
      exact Phase.noConfusion hr
    · refine ⟨hc1, ?_⟩
      intro i t hit
      obtain ⟨r, hr⟩ := hdone i t hit
      have hrv := (hthreads i t hit).2.2.1 r hr
      rw [hrv] at hr
      exact hr

/-- Witness for C1: two concurrent callers of the same tag against an empty
cache; the schedule interleaves both through the gate; exactly one
transport call is made and both callers end with the same fetched value. -/
theorem single_upstream_call_per_key_witness :
    (runTrace wEnv c1wTr wInit2).map
      (fun u => (u.calls, u.threads.map (fun t => t.phase))) =
      some (1, [.done (.ok sampleStats), .done (.ok sampleStats)]) := by
  rcases hrun : runTrace wEnv c1wTr wInit2 with _ | s
  · have hs : (runTrace wEnv c1wTr wInit2).isSome = true := by decide
    rw [hrun] at hs
    simp at hs
  · have hnow : s.now = 0 := by
      have hs : (runTrace wEnv c1wTr wInit2).map (fun u => u.now) =
          some 0 := by decide
      rw [hrun] at hs
      simpa using hs
    have hph : s.threads.map (fun t => t.phase) =
        [.done (.ok sampleStats), .done (.ok sampleStats)] := by
      have hs : (runTrace wEnv c1wTr wInit2).map
          (fun u => u.threads.map (fun t => t.phase)) =
          some [.done (.ok sampleStats), .done (.ok sampleStats)] := by decide
      rw [hrun] at hs
      simpa using hs
    have hdone : ∀ (i : Nat) (t : GoThread), s.threads[i]? = some t →
        ∃ r, t.phase = .done r := by
      intro i t hit
      have hmap : (s.threads.map (fun t => t.phase))[i]? = some t.phase := by
        rw [List.getElem?_map, hit]
        rfl
      rw [hph] at hmap
      rcases i with _ | _ | i
      · simp at hmap
        exact ⟨.ok sampleStats, hmap.symm⟩
      · simp at hmap
        exact ⟨.ok sampleStats, hmap.symm⟩
      · simp at hmap
    have h := single_upstream_call_per_key wEnv "Name-1234" sampleStats [] 0
      ["Name#1234", "Name#1234"] c1wTr s rfl rfl (by decide)
      (fun e he => Option.noConfusion he) (by decide) hrun
      (by rw [hnow]; decide)
    have h2 := h.2 (by simp) hdone
    simp [h2.1, hph]

end Owbot
